import Mathlib

/-!
Verification of the noodler music toolkit core against its specification.

The development shallowly embeds the TypeScript sources:

* `src/scale/intervals.ts`, `src/scale/generator.ts`, `src/scale/chords.ts`
  (note names, 12-TET tuning, chord resolution);
* the effects-enabled `Synth` class (voice table, setters, effect chain,
  destruction);
* `src/audio/backing.ts` (`BackingTrack`: lookahead scheduler, rhythm styles,
  chord cycling, setters, destruction).

Floating-point Hz values in the source are always of the form
`440 * 2 ^ (s / 12)`; they are modelled exactly by the exponent `s`
("semitones relative to A4"), with `freqHz` giving the denoted real number.
Time and all other numeric quantities are modelled by `ℚ`.  Throwing is
modelled by `Except` / an explicit error component.
-/

namespace Noodler

/-- The 12 chromatic note names (`NoteName` in `src/scale/types.ts`). -/
inductive NoteName
  | C | Cs | D | Ds | E | F | Fs | G | Gs | A | As | B
  deriving DecidableEq

/-- `NOTE_SEMITONES` (`src/scale/intervals.ts`): semitone offset from C. -/
def NOTE_SEMITONES : NoteName → ℤ
  | .C => 0
  | .Cs => 1
  | .D => 2
  | .Ds => 3
  | .E => 4
  | .F => 5
  | .Fs => 6
  | .G => 7
  | .Gs => 8
  | .A => 9
  | .As => 10
  | .B => 11

/-- `NOTE_NAMES` (`src/scale/intervals.ts`): chromatic order starting at C. -/
def NOTE_NAMES : List NoteName :=
  [.C, .Cs, .D, .Ds, .E, .F, .Fs, .G, .Gs, .A, .As, .B]

/-- `MAJOR_SCALE_DEGREES` (`src/scale/intervals.ts`). -/
def MAJOR_SCALE_DEGREES : List ℤ := [0, 2, 4, 5, 7, 9, 11]

/-- `ROMAN_TO_DEGREE` (`src/scale/intervals.ts`), as an association list in
source order (both upper- and lowercase keys). -/
def ROMAN_TO_DEGREE : List (String × Nat) :=
  [("I", 1), ("II", 2), ("III", 3), ("IV", 4), ("V", 5), ("VI", 6), ("VII", 7),
   ("i", 1), ("ii", 2), ("iii", 3), ("iv", 4), ("v", 5), ("vi", 6), ("vii", 7)]

/-- Lookup in `ROMAN_TO_DEGREE` (`ROMAN_TO_DEGREE[upperChord]` in the source). -/
def romanLookup (s : String) : Option Nat :=
  (ROMAN_TO_DEGREE.find? (fun p => p.1 == s)).map (fun p => p.2)

/-- `noteToFrequency` (`src/scale/generator.ts`).  The source returns
`440 * 2 ** ((midi - 69) / 12)` Hz with `midi = semitone + (octave + 1) * 12`;
the Hz value is modelled exactly by its exponent, so this definition returns
`midi - 69`, the pitch in semitones relative to A4.  `freqHz` recovers the
denoted frequency. -/
def noteToFrequency (note : NoteName) (octave : ℤ) : ℤ :=
  NOTE_SEMITONES note + (octave + 1) * 12 - 69

/-- The real frequency denoted by a pitch of `s` semitones relative to A4. -/
noncomputable def freqHz (s : ℚ) : ℝ := 440 * (2 : ℝ) ^ ((s : ℝ) / 12)

/-- Spelling of a note name, as produced for chord symbols. -/
def noteNameStr : NoteName → String
  | .C => "C"
  | .Cs => "C#"
  | .D => "D"
  | .Ds => "D#"
  | .E => "E"
  | .F => "F"
  | .Fs => "F#"
  | .G => "G"
  | .Gs => "G#"
  | .A => "A"
  | .As => "A#"
  | .B => "B"

/-- JS `String.prototype.toUpperCase`, restricted to the ASCII chord inputs. -/
def toUpper (s : String) : String := String.mk (s.data.map Char.toUpper)

/-- `isMajorChord` (`src/scale/chords.ts`): `roman === roman.toUpperCase()`. -/
def isMajorChord (roman : String) : Bool := roman == toUpper roman

/-- Root letters accepted by the chord-symbol regex `^([A-G]#?)m?$`. -/
def isRootLetter (c : Char) : Bool := decide ('A' ≤ c ∧ c ≤ 'G')

/-- The decomposition performed by the regex `^([A-G]#?)m?$` in
`parseChordSymbol`: root letter, whether `#` follows, whether a trailing `m`
follows.  `none` exactly when the regex does not match. -/
def chordSymbolSplit : List Char → Option (Char × Bool × Bool)
  | [c] => if isRootLetter c then some (c, false, false) else none
  | [c, d] =>
      if isRootLetter c then
        if d = '#' then some (c, true, false)
        else if d = 'm' then some (c, false, true)
        else none
      else none
  | [c, d, e] =>
      if isRootLetter c ∧ d = '#' ∧ e = 'm' then some (c, true, true) else none
  | _ => none

/-- The `root in NOTE_SEMITONES` check of `parseChordSymbol`: maps the matched
root text (letter, sharp?) to a `NoteName`; `none` exactly for the two raw
roots that are not note names, `E#` and `B#`. -/
def rootNoteName : Char → Bool → Option NoteName
  | 'A', false => some .A
  | 'A', true => some .As
  | 'B', false => some .B
  | 'C', false => some .C
  | 'C', true => some .Cs
  | 'D', false => some .D
  | 'D', true => some .Ds
  | 'E', false => some .E
  | 'F', false => some .F
  | 'F', true => some .Fs
  | 'G', false => some .G
  | 'G', true => some .Gs
  | _, _ => none

/-- `parseChordSymbol` (`src/scale/chords.ts`). -/
def parseChordSymbol (symbol : String) : Option (NoteName × Bool) :=
  match chordSymbolSplit symbol.data with
  | none => none
  | some (c, sharp, hasM) =>
      match rootNoteName c sharp with
      | none => none
      | some root => some (root, !hasM)

/-- `ResolvedChord` (`src/scale/types.ts`); `frequency` is stored in semitones
relative to A4 (see `freqHz`). -/
structure ResolvedChord where
  root : NoteName
  isMajor : Bool
  symbol : String
  frequency : ℤ
  deriving DecidableEq

/-- `resolveChord` (`src/scale/chords.ts`); the thrown `Invalid chord` error is
modelled by `Except.error`.  The `!` assertion on `MAJOR_SCALE_DEGREES` and the
index into `NOTE_NAMES` are total here (`getD`) because `degree ∈ [1,7]` and
the index is reduced mod 12; JS `%` agrees with `Int.emod` since the dividend
is non-negative. -/
def resolveChord (chord : String) (key : NoteName) (octave : ℤ) :
    Except String ResolvedChord :=
  match romanLookup (toUpper chord) with
  | some degree =>
      let keyIndex := NOTE_SEMITONES key
      let semitoneOffset := MAJOR_SCALE_DEGREES.getD (degree - 1) 0
      let rootIndex := (keyIndex + semitoneOffset) % 12
      let root := NOTE_NAMES.getD rootIndex.toNat .C
      let isMajor := isMajorChord chord
      let symbol := if isMajor then noteNameStr root else noteNameStr root ++ "m"
      Except.ok ⟨root, isMajor, symbol, noteToFrequency root octave⟩
  | none =>
      match parseChordSymbol chord with
      | some (root, isMajor) =>
          let symbol := if isMajor then noteNameStr root else noteNameStr root ++ "m"
          Except.ok ⟨root, isMajor, symbol, noteToFrequency root octave⟩
      | none => Except.error ("Invalid chord: " ++ chord)

/-- `resolveChordProgression` (`src/scale/chords.ts`); JS `Array.map` over a
throwing function propagates the first error, i.e. `mapM`. -/
def resolveChordProgression (progression : List String) (key : NoteName)
    (octave : ℤ) : Except String (List ResolvedChord) :=
  progression.mapM (fun chord => resolveChord chord key octave)

/-- The next chromatic step above a note (B wraps to C an octave up). -/
def nextChromatic (n : NoteName) (o : ℤ) : NoteName × ℤ :=
  match n with
  | .C => (.Cs, o)
  | .Cs => (.D, o)
  | .D => (.Ds, o)
  | .Ds => (.E, o)
  | .E => (.F, o)
  | .F => (.Fs, o)
  | .Fs => (.G, o)
  | .G => (.Gs, o)
  | .Gs => (.A, o)
  | .A => (.As, o)
  | .As => (.B, o)
  | .B => (.C, o + 1)

/-- The chord recognizer with the extent claim C9 gives it: a roman numeral
I–VII in any case (the source's lookup of the uppercased input in
`ROMAN_TO_DEGREE`), or any chord symbol matching `^([A-G]#?)m?$`. -/
def claimedRecognized (s : String) : Bool :=
  (romanLookup (toUpper s)).isSome || (chordSymbolSplit s.data).isSome

/-- The amended recognizer: as `claimedRecognized`, except that the chord
symbol's root (letter plus optional sharp) must itself be one of the 12 note
names, which excludes exactly the raw roots `E#` and `B#`. -/
def amendedRecognized (s : String) : Bool :=
  (romanLookup (toUpper s)).isSome ||
    (match chordSymbolSplit s.data with
     | some (c, sharp, _) => (rootNoteName c sharp).isSome
     | none => false)

/-! ## Voice Engine (Synth) -/

/-- `OscillatorType` (`src/audio/types.ts`). -/
inductive OscillatorType
  | sine | square | sawtooth | triangle
  deriving DecidableEq

/-- `ADSREnvelope` (`src/audio/types.ts`); times in seconds, level in [0,1]. -/
structure ADSREnvelope where
  attack : ℚ
  decay : ℚ
  sustain : ℚ
  release : ℚ
  deriving DecidableEq

/-- `DEFAULT_ENVELOPE` of the Synth. -/
def DEFAULT_ENVELOPE : ADSREnvelope := ⟨1/100, 1/10, 7/10, 3/10⟩

/-- `DEFAULT_VOLUME` of the Synth. -/
def DEFAULT_VOLUME : ℚ := 1/2

/-- `EffectsState` (`src/audio/types.ts`): the five named effect toggles. -/
structure EffectsState where
  delay : Bool
  distortion : Bool
  vibrato : Bool
  filter : Bool
  reverb : Bool
  deriving DecidableEq

/-- An entry of the voice table (`ActiveNote`).  The source stores the live
oscillator/gain handles and the clamped shifted frequency
`max 20 (min 20000 (frequency * 2^octaveShift))`; with `octaveShift` an
arbitrary clamped rational that product is not representable in `ℚ`, so the
note records the data it is computed from — the raw input frequency and the
octave shift at creation time — together with the oscillator's detune value
(set by `bend`) and whether the vibrato LFO is connected to its detune. -/
structure ActiveNote where
  rawFrequency : ℚ
  shift : ℚ
  detune : ℚ
  vibratoAttached : Bool
  deriving DecidableEq

/-- JS `Map.has`. -/
def mapHas {V : Type} (k : ℤ) (m : List (ℤ × V)) : Bool :=
  m.any (fun p => p.1 == k)

/-- JS `Map.delete`. -/
def mapDelete {V : Type} (k : ℤ) (m : List (ℤ × V)) : List (ℤ × V) :=
  m.filter (fun p => p.1 != k)

/-- JS `Map.set`: replaces the value in place at an existing key, otherwise
appends in insertion order. -/
def mapSet {V : Type} (k : ℤ) (v : V) (m : List (ℤ × V)) : List (ℤ × V) :=
  if mapHas k m then m.map (fun p => if p.1 == k then (k, v) else p)
  else m ++ [(k, v)]

/-- JS `Map.get`. -/
def mapGet {V : Type} (k : ℤ) (m : List (ℤ × V)) : Option V :=
  (m.find? (fun p => p.1 == k)).map (fun p => p.2)

/-- The five effect units a `Synth` can instantiate. -/
inductive EffectUnit
  | delay | distortion | vibrato | filter | reverb
  deriving DecidableEq, Fintype

/-- The serial `activeEffects` list built by `Synth.rebuildEffectChain`: four
conditional pushes in the source's fixed order distortion → filter → delay →
reverb.  The vibrato unit is instantiated when enabled but never pushed. -/
def rebuildActiveEffects (es : EffectsState) : List EffectUnit :=
  (if es.distortion then [EffectUnit.distortion] else []) ++
    (if es.filter then [EffectUnit.filter] else []) ++
      (if es.delay then [EffectUnit.delay] else []) ++
        (if es.reverb then [EffectUnit.reverb] else [])

/-- Connection points touched by `rebuildEffectChain`. -/
inductive ChainNode
  | chainInput
  | unitIn (u : EffectUnit)
  | unitOut (u : EffectUnit)
  | masterGain
  deriving DecidableEq

/-- The consecutive unit-to-unit links of the chain, ending at the master
gain. -/
def chainLinks : EffectUnit → List EffectUnit → List (ChainNode × ChainNode)
  | u, [] => [(ChainNode.unitOut u, ChainNode.masterGain)]
  | u, v :: rest => (ChainNode.unitOut u, ChainNode.unitIn v) :: chainLinks v rest

/-- The connections made by `rebuildEffectChain` after the full disconnect:
chain input → first unit, each unit's output → next unit's input, last unit →
master gain; or chain input → master gain when the list is empty. -/
def chainWiring (chain : List EffectUnit) : List (ChainNode × ChainNode) :=
  match chain with
  | [] => [(ChainNode.chainInput, ChainNode.masterGain)]
  | u :: rest => (ChainNode.chainInput, ChainNode.unitIn u) :: chainLinks u rest

/-- The `Synth` state.  `audioCtx` records whether the lazily created
AudioContext exists, `closeCalls` counts invocations of `AudioContext.close`
(the engine-release operation), `chain` is the serial effect chain currently
instantiated and `vibratoNode` whether the vibrato unit is instantiated. -/
structure SynthState where
  audioCtx : Bool
  closeCalls : ℕ
  activeNotes : List (ℤ × ActiveNote)
  waveform : OscillatorType
  envelope : ADSREnvelope
  volume : ℚ
  destroyed : Bool
  octaveShift : ℚ
  effectsState : EffectsState
  chain : List EffectUnit
  vibratoNode : Bool
  deriving DecidableEq

/-- `Synth.clampVolume`. -/
def clampVolume (value : ℚ) : ℚ := max 0 (min 1 value)

/-- `Partial<ADSREnvelope>` as passed in `SynthConfig`. -/
structure PartialEnvelope where
  attack : Option ℚ
  decay : Option ℚ
  sustain : Option ℚ
  release : Option ℚ

/-- The spread `{ ...DEFAULT_ENVELOPE, ...config.envelope }`. -/
def mergeEnvelope (p : PartialEnvelope) : ADSREnvelope :=
  ⟨p.attack.getD DEFAULT_ENVELOPE.attack, p.decay.getD DEFAULT_ENVELOPE.decay,
   p.sustain.getD DEFAULT_ENVELOPE.sustain,
   p.release.getD DEFAULT_ENVELOPE.release⟩

/-- `SynthConfig` (`src/audio/types.ts`), all fields optional. -/
structure SynthConfig where
  waveform : Option OscillatorType
  envelope : PartialEnvelope
  volume : Option ℚ

/-- The `Synth` constructor. -/
def synthNew (config : SynthConfig) : SynthState :=
  ⟨false, 0, [], config.waveform.getD .sine, mergeEnvelope config.envelope,
   clampVolume (config.volume.getD DEFAULT_VOLUME), false, 0,
   ⟨false, false, false, false, false⟩, [], false⟩

/-- `Synth.rebuildEffectChain`: guarded on a live context; rebuilds the
serial chain from the flags and (re)instantiates the vibrato unit exactly
when its flag is enabled. -/
def rebuildEffectChain (s : SynthState) : SynthState :=
  if s.audioCtx then
    { s with chain := rebuildActiveEffects s.effectsState,
             vibratoNode := s.effectsState.vibrato }
  else s

/-- `Synth.ensureAudioContext`: lazily creates the context and builds the
chain. -/
def ensureAudioContext (s : SynthState) : SynthState :=
  if s.audioCtx then s
  else rebuildEffectChain { s with audioCtx := true }

/-- `Synth.noteOff`. -/
def noteOff (noteIndex : ℤ) (s : SynthState) : SynthState :=
  match mapGet noteIndex s.activeNotes with
  | none => s
  | some _ =>
      if s.audioCtx then
        { s with activeNotes := mapDelete noteIndex s.activeNotes }
      else s

/-- `Synth.noteOn`. -/
def noteOn (noteIndex : ℤ) (frequency : ℚ) (s : SynthState) : SynthState :=
  if s.destroyed then s
  else
    let s := ensureAudioContext s
    let s := if mapHas noteIndex s.activeNotes then noteOff noteIndex s else s
    { s with activeNotes :=
        (mapSet noteIndex
          ⟨frequency, s.octaveShift, 0, s.effectsState.vibrato && s.vibratoNode⟩
          s.activeNotes) }

/-- `Synth.stopAll`: `noteOff` on every tracked key. -/
def stopAll (s : SynthState) : SynthState :=
  (s.activeNotes.map (fun p => p.1)).foldl (fun st k => noteOff k st) s

/-- `Synth.bend`: sets the voice's detune immediately if the key is live. -/
def bend (noteIndex : ℤ) (cents : ℚ) (s : SynthState) : SynthState :=
  match mapGet noteIndex s.activeNotes with
  | none => s
  | some note =>
      if s.audioCtx then
        { s with activeNotes :=
            mapSet noteIndex { note with detune := cents } s.activeNotes }
      else s

/-- `Synth.setWaveform`. -/
def setWaveform (t : OscillatorType) (s : SynthState) : SynthState :=
  { s with waveform := t }

/-- `Synth.setVolume`; the live master-gain update touches no further state
observable through accessors. -/
def setVolume (value : ℚ) (s : SynthState) : SynthState :=
  { s with volume := clampVolume value }

/-- `Synth.setOctaveShift`. -/
def setOctaveShift (octaves : ℚ) (s : SynthState) : SynthState :=
  { s with octaveShift := max (-2) (min 2 octaves) }

/-- `Synth.toggleDelay`. -/
def toggleDelay (enabled : Bool) (s : SynthState) : SynthState :=
  if s.effectsState.delay == enabled then s
  else
    let s := { s with effectsState := { s.effectsState with delay := enabled } }
    if s.audioCtx then rebuildEffectChain s else s

/-- `Synth.toggleDistortion`. -/
def toggleDistortion (enabled : Bool) (s : SynthState) : SynthState :=
  if s.effectsState.distortion == enabled then s
  else
    let s :=
      { s with effectsState := { s.effectsState with distortion := enabled } }
    if s.audioCtx then rebuildEffectChain s else s

/-- `Synth.toggleVibrato`: also attaches/detaches the LFO on every live
voice. -/
def toggleVibrato (enabled : Bool) (s : SynthState) : SynthState :=
  if s.effectsState.vibrato == enabled then s
  else
    let s := { s with effectsState := { s.effectsState with vibrato := enabled } }
    if s.audioCtx then
      let s := rebuildEffectChain s
      if s.vibratoNode then
        { s with activeNotes :=
            s.activeNotes.map (fun p => (p.1, { p.2 with vibratoAttached := enabled })) }
      else s
    else s

/-- `Synth.toggleFilter`. -/
def toggleFilter (enabled : Bool) (s : SynthState) : SynthState :=
  if s.effectsState.filter == enabled then s
  else
    let s := { s with effectsState := { s.effectsState with filter := enabled } }
    if s.audioCtx then rebuildEffectChain s else s

/-- `Synth.toggleReverb`. -/
def toggleReverb (enabled : Bool) (s : SynthState) : SynthState :=
  if s.effectsState.reverb == enabled then s
  else
    let s := { s with effectsState := { s.effectsState with reverb := enabled } }
    if s.audioCtx then rebuildEffectChain s else s

/-- `Synth.cleanupAllEffects`: releases every instantiated effect unit. -/
def cleanupAllEffects (s : SynthState) : SynthState :=
  { s with chain := [], vibratoNode := false }

/-- `Synth.destroy`. -/
def synthDestroy (s : SynthState) : SynthState :=
  if s.destroyed then s
  else
    let s := { s with destroyed := true }
    let s := stopAll s
    let s := cleanupAllEffects s
    let s :=
      if s.audioCtx then
        { s with audioCtx := false, closeCalls := s.closeCalls + 1 }
      else s
    { s with activeNotes := [] }

/-- `Synth.getVolume`. -/
def getVolume (s : SynthState) : ℚ := s.volume

/-- `Synth.getWaveform`. -/
def getWaveform (s : SynthState) : OscillatorType := s.waveform

/-- `Synth.getOctaveShift`. -/
def getOctaveShift (s : SynthState) : ℚ := s.octaveShift

/-- `Synth.getActiveEffects`. -/
def getActiveEffects (s : SynthState) : EffectsState := s.effectsState

/-- `Synth.getActiveNoteCount`. -/
def getActiveNoteCount (s : SynthState) : ℕ := s.activeNotes.length

/-- The full `Synth` method surface, for stating invariants over every
operation. -/
inductive SynthOp
  | noteOn (k : ℤ) (f : ℚ)
  | noteOff (k : ℤ)
  | stopAll
  | bend (k : ℤ) (c : ℚ)
  | setWaveform (t : OscillatorType)
  | setVolume (v : ℚ)
  | setOctaveShift (o : ℚ)
  | toggleDelay (b : Bool)
  | toggleDistortion (b : Bool)
  | toggleVibrato (b : Bool)
  | toggleFilter (b : Bool)
  | toggleReverb (b : Bool)
  | destroy

/-- Interpretation of a `SynthOp`. -/
def applySynthOp : SynthOp → SynthState → SynthState
  | .noteOn k f, s => noteOn k f s
  | .noteOff k, s => noteOff k s
  | .stopAll, s => stopAll s
  | .bend k c, s => bend k c s
  | .setWaveform t, s => setWaveform t s
  | .setVolume v, s => setVolume v s
  | .setOctaveShift o, s => setOctaveShift o s
  | .toggleDelay b, s => toggleDelay b s
  | .toggleDistortion b, s => toggleDistortion b s
  | .toggleVibrato b, s => toggleVibrato b s
  | .toggleFilter b, s => toggleFilter b s
  | .toggleReverb b, s => toggleReverb b s
  | .destroy, s => synthDestroy s

/-! ## Sequencer (BackingTrack) -/

/-- `BackingStyle` (`src/audio/types.ts`). -/
inductive BackingStyle
  | drone | quarter | eighth | blues | arpeggio
  deriving DecidableEq

/-- `BackingInstrument` (`src/audio/types.ts`). -/
inductive BackingInstrument
  | bass | pad | pluck | keys
  deriving DecidableEq

/-- One entry of `INSTRUMENT_CONFIG`. -/
structure InstrumentProfile where
  waveform : OscillatorType
  envelope : ADSREnvelope
  octaveOffset : ℤ
  deriving DecidableEq

/-- `INSTRUMENT_CONFIG` (`src/audio/backing.ts`). -/
def INSTRUMENT_CONFIG : BackingInstrument → InstrumentProfile
  | .bass => ⟨.triangle, ⟨1/100, 1/10, 3/5, 1/5⟩, -1⟩
  | .pad => ⟨.sine, ⟨3/10, 1/5, 4/5, 1/2⟩, 0⟩
  | .pluck => ⟨.sawtooth, ⟨1/200, 1/5, 1/5, 3/10⟩, 0⟩
  | .keys => ⟨.square, ⟨1/100, 3/20, 2/5, 1/4⟩, 0⟩

/-- `ScheduledNote` (`src/audio/backing.ts`): per-beat time offset and
duration in seconds, frequency in semitones relative to A4 (see `freqHz`). -/
structure ScheduledNote where
  time : ℚ
  frequency : ℤ
  duration : ℚ
  deriving DecidableEq

/-- An event actually scheduled by `schedule`/`playNote`: absolute start time
`nextNoteTime + note.time` on the audio clock, frequency, duration. -/
structure ScheduledEvent where
  start : ℚ
  frequency : ℤ
  duration : ℚ
  deriving DecidableEq

/-- `BackingConfig` (`src/audio/types.ts`), all fields optional. -/
structure BackingConfig where
  tempo : Option ℚ
  style : Option BackingStyle
  instrument : Option BackingInstrument
  bars : Option ℕ
  swing : Option ℚ
  chords : Option (List String)

/-- The `BackingTrack` state.  `schedulerOn` models the live interval timer,
`activeOscCount` the `activeOscillators` set's size, and the two disconnect
counters count the release operations on the master gain and compressor. -/
structure BackingState where
  tempo : ℚ
  style : BackingStyle
  instrument : BackingInstrument
  resolvedChords : List ResolvedChord
  bars : ℕ
  swing : ℚ
  key : NoteName
  isPlaying : Bool
  destroyed : Bool
  schedulerOn : Bool
  nextNoteTime : ℚ
  currentBeat : ℕ
  currentChordIndex : ℕ
  beatsPerChord : ℕ
  activeOscCount : ℕ
  masterDisconnects : ℕ
  compressorDisconnects : ℕ
  deriving DecidableEq

/-- `BackingTrack.resolveChords`: an empty progression resolves to the single
tonic chord; the resolver's octave defaults to 4. -/
def resolveChordsB (progression : List String) (key : NoteName) :
    Except String (List ResolvedChord) :=
  if progression = [] then resolveChordProgression ["I"] key 4
  else resolveChordProgression progression key 4

/-- `BackingTrack.updateBeatsPerChord`: `beatsPerBar (= 4) * bars`. -/
def updateBeatsPerChord (s : BackingState) : BackingState :=
  { s with beatsPerChord := 4 * s.bars }

/-- The `BackingTrack` constructor.  Note that `tempo` is taken from the
config unclamped; only `swing` is clamped here.  A failing chord resolution
propagates (`Except.error`). -/
def backingNew (config : BackingConfig) : Except String BackingState :=
  match resolveChordsB (config.chords.getD ["I"]) NoteName.C with
  | .error e => .error e
  | .ok chords =>
      .ok (updateBeatsPerChord
        ⟨config.tempo.getD 120, config.style.getD .quarter,
         config.instrument.getD .bass, chords, config.bars.getD 1,
         max 0 (min 100 (config.swing.getD 0)), NoteName.C,
         false, false, false, 0, 0, 0, 0, 0, 0, 0⟩)

/-- `BackingTrack.play`: resets the beat/chord counters, sets `nextNoteTime`
to the audio clock's current value `now`, starts the tick timer. -/
def backingPlay (now : ℚ) (s : BackingState) : BackingState :=
  if s.isPlaying || s.destroyed then s
  else
    { s with isPlaying := true, nextNoteTime := now, currentBeat := 0,
             currentChordIndex := 0, schedulerOn := true }

/-- `BackingTrack.stop`: stops the timer and every still-sounding transient
voice. -/
def backingStop (s : BackingState) : BackingState :=
  if !s.isPlaying then s
  else { s with isPlaying := false, schedulerOn := false, activeOscCount := 0 }

/-- `BackingTrack.setTempo`. -/
def setTempo (bpm : ℚ) (s : BackingState) : BackingState :=
  updateBeatsPerChord { s with tempo := max 20 (min 300 bpm) }

/-- `BackingTrack.setChords`.  JS exception semantics: the optional `key` is
assigned before resolution, so on a resolution error the state keeps the new
key but the old chord list and index; the error component carries the
message. -/
def setChords (progression : List String) (key : Option NoteName)
    (s : BackingState) : BackingState × Option String :=
  let s := match key with
           | some k => { s with key := k }
           | none => s
  match resolveChordsB progression s.key with
  | .error e => (s, some e)
  | .ok chords =>
      ({ s with resolvedChords := chords, currentChordIndex := 0 }, none)

/-- `BackingTrack.setStyle`. -/
def setStyle (style : BackingStyle) (s : BackingState) : BackingState :=
  updateBeatsPerChord { s with style := style }

/-- `BackingTrack.setSwing`. -/
def setSwing (swing : ℚ) (s : BackingState) : BackingState :=
  { s with swing := max 0 (min 100 swing) }

/-- `BackingTrack.setInstrument`. -/
def setInstrument (instrument : BackingInstrument) (s : BackingState) :
    BackingState :=
  { s with instrument := instrument }

/-- `BackingTrack.getTempo`. -/
def getTempo (s : BackingState) : ℚ := s.tempo

/-- `BackingTrack.getSwing`. -/
def getSwing (s : BackingState) : ℚ := s.swing

/-- `BackingTrack.destroy`. -/
def backingDestroy (s : BackingState) : BackingState :=
  if s.destroyed then s
  else
    let s := backingStop { s with destroyed := true }
    { s with masterDisconnects := s.masterDisconnects + 1,
             compressorDisconnects := s.compressorDisconnects + 1 }

/-- `BackingTrack.getChordTones`: `[root, third, fifth]`, where multiplying a
frequency by `2 ^ (k/12)` adds `k` in the semitone representation. -/
def getChordTones (chord : ResolvedChord) (octave : ℤ) : List ℤ :=
  let root := noteToFrequency chord.root octave
  let third := root + (if chord.isMajor then 4 else 3)
  let fifth := root + 7
  [root, third, fifth]

/-- `BackingTrack.getNotesForCurrentBeat`.  `0.95 = 19/20`, `0.8 = 4/5`,
`0.4 = 2/5`, `0.35 = 7/20`.  The `!` index into `chordTones` is total
(`getD`) since `currentBeat % 3 < 3`. -/
def getNotesForCurrentBeat (s : BackingState) : List ScheduledNote :=
  match s.resolvedChords.get? s.currentChordIndex with
  | none => []
  | some chord =>
      let icfg := INSTRUMENT_CONFIG s.instrument
      let baseOctave := 4 + icfg.octaveOffset
      let rootFreq := noteToFrequency chord.root baseOctave
      let beatDuration := 60 / s.tempo
      match s.style with
      | .drone =>
          if s.currentBeat = 0 then
            [⟨0, rootFreq, beatDuration * (s.beatsPerChord : ℚ) * (19/20)⟩]
          else []
      | .quarter => [⟨0, rootFreq, beatDuration * (4/5)⟩]
      | .eighth =>
          let swingOffset := (s.swing / 100) * (beatDuration / 3)
          [⟨0, rootFreq, beatDuration * (2/5)⟩,
           ⟨beatDuration / 2 + swingOffset, rootFreq, beatDuration * (7/20)⟩]
      | .blues =>
          let shuffleSwing := beatDuration * (2/3)
          [⟨0, rootFreq, beatDuration * (1/2)⟩,
           ⟨shuffleSwing, rootFreq, beatDuration * (1/4)⟩]
      | .arpeggio =>
          let chordTones := getChordTones chord baseOctave
          let noteIndex := s.currentBeat % chordTones.length
          [⟨0, chordTones.getD noteIndex 0, beatDuration * (4/5)⟩]

/-- `BackingTrack.advanceBeat`.  The chord index advances modulo the chord
list's length (meaningful when that length is positive, which the chord
invariant guarantees). -/
def advanceBeat (s : BackingState) : BackingState :=
  let beatDuration := 60 / s.tempo
  let s := { s with nextNoteTime := s.nextNoteTime + beatDuration,
                    currentBeat := s.currentBeat + 1 }
  if s.beatsPerChord ≤ s.currentBeat then
    { s with currentBeat := 0,
             currentChordIndex :=
               (s.currentChordIndex + 1) % s.resolvedChords.length }
  else s

/-- One scheduler tick (`BackingTrack.schedule`): the loop
`while (nextNoteTime < lookaheadEnd)` unrolled up to `fuel` iterations.  Each
iteration emits the current beat's events at absolute time
`nextNoteTime + note.time` (via `playNote`, which also registers the
transient oscillator) and advances the beat.  Every finite prefix of the
source loop's behavior is `scheduleTick fuel` for large enough `fuel`. -/
def scheduleTick : ℕ → ℚ → BackingState → List ScheduledEvent × BackingState
  | 0, _, s => ([], s)
  | fuel + 1, lookaheadEnd, s =>
      if s.nextNoteTime < lookaheadEnd then
        let notes := getNotesForCurrentBeat s
        let events :=
          notes.map (fun n => (⟨s.nextNoteTime + n.time, n.frequency, n.duration⟩ : ScheduledEvent))
        let s := { s with activeOscCount := s.activeOscCount + notes.length }
        let res := scheduleTick fuel lookaheadEnd (advanceBeat s)
        (events ++ res.1, res.2)
      else ([], s)

/-- One firing of the 25 ms interval timer: the timer exists only while
playing, and `schedule` looks ahead `now + 0.1` seconds. -/
def backingTick (fuel : ℕ) (now : ℚ) (s : BackingState) :
    List ScheduledEvent × BackingState :=
  if s.schedulerOn then scheduleTick fuel (now + 1/10) s else ([], s)

/-- The `BackingTrack` method surface (ticks included), for stating run-wide
properties. -/
inductive BackingOp
  | tick (fuel : ℕ) (now : ℚ)
  | play (now : ℚ)
  | stop
  | setTempo (bpm : ℚ)
  | setChords (progression : List String) (key : Option NoteName)
  | setStyle (style : BackingStyle)
  | setSwing (swing : ℚ)
  | setInstrument (instrument : BackingInstrument)
  | destroy

/-- Interpretation of a `BackingOp`: the events it schedules and the state it
leaves. -/
def applyBackingOp : BackingOp → BackingState → List ScheduledEvent × BackingState
  | .tick fuel now, s => backingTick fuel now s
  | .play now, s => ([], backingPlay now s)
  | .stop, s => ([], backingStop s)
  | .setTempo b, s => ([], setTempo b s)
  | .setChords p k, s => ([], (setChords p k s).1)
  | .setStyle st, s => ([], setStyle st s)
  | .setSwing sw, s => ([], setSwing sw s)
  | .setInstrument i, s => ([], setInstrument i s)
  | .destroy, s => ([], backingDestroy s)

/-- Runs a sequence of operations, concatenating all scheduled events in
order. -/
def runBacking : List BackingOp → BackingState → List ScheduledEvent × BackingState
  | [], s => ([], s)
  | op :: ops, s =>
      let res := applyBackingOp op s
      let rest := runBacking ops res.2
      (res.1 ++ rest.1, rest.2)

/-- Whether an operation is `play` (which legitimately resets the clock and
so is excluded from a single run's monotonicity claim). -/
def isPlayOp : BackingOp → Bool
  | .play _ => true
  | _ => false

/-! ## Spec-side definitions and concrete states -/

/-- Enabledness of an effect unit's flag in an `EffectsState`. -/
def enabledFlag (es : EffectsState) : EffectUnit → Bool
  | .delay => es.delay
  | .distortion => es.distortion
  | .vibrato => es.vibrato
  | .filter => es.filter
  | .reverb => es.reverb

/-- The voice-table invariant: at most one entry per key. -/
def keysNodup {V : Type} (m : List (ℤ × V)) : Prop :=
  (m.map (fun p => p.1)).Nodup

/-- Interpretation of a per-beat scheduled note in the claim's terms: time and
duration in seconds, frequency as a real number of Hz. -/
noncomputable def interpNote (n : ScheduledNote) : ℚ × ℝ × ℚ :=
  (n.time, freqHz ((n.frequency : ℤ) : ℚ), n.duration)

/-- Modelled from the spec's per-style event table (C2, with the swing factor
read as the stored 0–100 percentage normalized by 100 — the amended reading):
events (offset, frequency, duration) for one beat, given the chord-root
frequency `R` at instrument octave, the chord quality, beat duration `B`,
swing, the beat number within the chord, and `beatsPerChord`. -/
noncomputable def specBeatEvents (style : BackingStyle) (R : ℝ) (isMajor : Bool)
    (B : ℚ) (swing : ℚ) (beat : ℕ) (beatsPerChord : ℕ) : List (ℚ × ℝ × ℚ) :=
  match style with
  | .drone =>
      if beat = 0 then [(0, R, B * (beatsPerChord : ℚ) * (19/20))] else []
  | .quarter => [(0, R, B * (4/5))]
  | .eighth =>
      [(0, R, B * (2/5)),
       (B / 2 + (swing / 100) * (B / 3), R, B * (7/20))]
  | .blues =>
      [(0, R, B * (1/2)), (B * (2/3), R, B * (1/4))]
  | .arpeggio =>
      let third := R * (2 : ℝ) ^ ((if isMajor then (4 : ℝ) else 3) / 12)
      let fifth := R * (2 : ℝ) ^ ((7 : ℝ) / 12)
      [(0, [R, third, fifth].getD (beat % 3) 0, B * (4/5))]

/-- The eighth-style offsets exactly as claim C2 words them: second event at
`B/2 + swing·B/3` with `swing` the stored swing value. -/
def claimedEighthOffsets (B swing : ℚ) : List ℚ := [0, B / 2 + swing * (B / 3)]

/-- The `SynthConfig` with no field supplied. -/
def defaultSynthConfig : SynthConfig := ⟨none, ⟨none, none, none, none⟩, none⟩

/-- A freshly constructed synth. -/
def synthDefault : SynthState := synthNew defaultSynthConfig

/-- A live synth: one note has been started, so the audio context exists. -/
def synthLive : SynthState := noteOn 0 440 synthDefault

/-- A destroyed synth. -/
def synthDead : SynthState := synthDestroy synthDefault

/-- The resolution of the roman numeral `I` in the key of C at octave 4. -/
def chordC : ResolvedChord := ⟨.C, true, "C", -9⟩

/-- The `BackingConfig` with no field supplied. -/
def defaultBackingConfig : BackingConfig := ⟨none, none, none, none, none, none⟩

/-- The state produced by the `BackingTrack` constructor on the default
config. -/
def backingDefault : BackingState :=
  ⟨120, .quarter, .bass, [chordC], 1, max 0 (min 100 0), .C, false, false,
   false, 0, 0, 0, 4, 0, 0, 0⟩

/-- A playing backing track at 120 BPM, quarter style, chords `['I']` in C. -/
def backingPlaying : BackingState := backingPlay 0 backingDefault

/-- The C2 counterexample state: eighth style with full swing (100). -/
def cexEighth : BackingState :=
  { backingPlaying with style := .eighth, swing := 100 }

/-- The ranges claim C1 assumes: tempo clamped to [20,300] and swing clamped
to [0,100]. -/
def tempoSwingInv (s : BackingState) : Prop :=
  20 ≤ s.tempo ∧ s.tempo ≤ 300 ∧ 0 ≤ s.swing ∧ s.swing ≤ 100

/-! ## Theorems -/

theorem noteToFrequency_nextChromatic (n : NoteName) (o : ℤ) :
    noteToFrequency (nextChromatic n o).1 (nextChromatic n o).2 =
      noteToFrequency n o + 1 := by
  cases n <;> simp [nextChromatic, noteToFrequency, NOTE_SEMITONES] <;> ring

theorem freqHz_pos (s : ℚ) : 0 < freqHz s := by
  have h2 : (0 : ℝ) < 2 := by norm_num
  have := Real.rpow_pos_of_pos h2 ((s : ℝ) / 12)
  unfold freqHz
  positivity

theorem freqHz_add_one (s : ℚ) :
    freqHz (s + 1) = freqHz s * (2 : ℝ) ^ ((1 : ℝ) / 12) := by
  unfold freqHz
  have h2 : (0 : ℝ) < 2 := by norm_num
  have : ((s + 1 : ℚ) : ℝ) / 12 = (s : ℝ) / 12 + 1 / 12 := by
    push_cast
    ring
  rw [this, Real.rpow_add h2]
  ring

/-- C8: `noteToFrequency` implements 12-tone equal temperament referenced to
A4 = 440 Hz: A4 denotes exactly 440 Hz, A5 denotes 880 Hz, and the ratio from
any note to the next chromatic step is exactly `2 ^ (1/12)` — exact equality
in the real-number model, hence in particular to 6 decimal digits. -/
theorem C8_noteToFrequency_tuning :
    freqHz ((noteToFrequency .A 4 : ℤ) : ℚ) = 440 ∧
    freqHz ((noteToFrequency .A 5 : ℤ) : ℚ) = 880 ∧
    ∀ (n : NoteName) (o : ℤ),
      freqHz ((noteToFrequency (nextChromatic n o).1 (nextChromatic n o).2 : ℤ) : ℚ) /
          freqHz ((noteToFrequency n o : ℤ) : ℚ) =
        (2 : ℝ) ^ ((1 : ℝ) / 12) := by
  have hA4 : noteToFrequency .A 4 = 0 := by decide
  have hA5 : noteToFrequency .A 5 = 12 := by decide
  refine ⟨?_, ?_, ?_⟩
  · rw [hA4]
    unfold freqHz
    norm_num
  · rw [hA5]
    unfold freqHz
    norm_num [Real.rpow_natCast]
  · intro n o
    rw [noteToFrequency_nextChromatic]
    have hcast : (((noteToFrequency n o + 1 : ℤ)) : ℚ) =
        ((noteToFrequency n o : ℤ) : ℚ) + 1 := by push_cast; ring
    rw [hcast, freqHz_add_one]
    have hne : freqHz ((noteToFrequency n o : ℤ) : ℚ) ≠ 0 :=
      ne_of_gt (freqHz_pos _)
    field_simp

/-- C9 counterexample: the input `"E#"` matches the claim's chord-symbol
pattern (root letter A–G, optional `#`, optional `m`), yet `resolveChord`
throws on it — the regex match succeeds but the source's `root in
NOTE_SEMITONES` check fails, because `E#` is not one of the 12 note names. -/
theorem C9_counterexample :
    claimedRecognized "E#" = true ∧
      resolveChord "E#" .C 4 = Except.error "Invalid chord: E#" :=
  ⟨by decide, rfl⟩

/-- C9 (amended): the two progression examples hold, and `resolveChord` throws
exactly when its input is neither a recognized roman numeral (I–VII, any case)
nor a chord symbol matching `^([A-G]#?)m?$` whose root text is one of the 12
chromatic note names — the raw roots `E#` and `B#` match the pattern but are
not note names and throw; every other recognized input resolves without
error. -/
theorem C9_resolveChord_domain :
    (resolveChordProgression ["I", "IV", "V", "I"] .G 4).map
        (fun l => l.map (fun c => c.root)) =
      Except.ok [.G, .C, .D, .G] ∧
    (resolveChordProgression ["ii", "V", "I"] .C 4).map
        (fun l => l.map (fun c => c.symbol)) =
      Except.ok ["Dm", "G", "C"] ∧
    ∀ (s : String) (key : NoteName) (octave : ℤ),
      (∃ msg, resolveChord s key octave = Except.error msg) ↔
        amendedRecognized s = false := by
  refine ⟨rfl, rfl, ?_⟩
  intro s key octave
  cases hr : romanLookup (toUpper s) with
  | some d =>
      simp only [resolveChord, amendedRecognized, hr, Option.isSome_some,
        Bool.true_or]
      simp
  | none =>
      cases hs : chordSymbolSplit s.data with
      | none =>
          simp only [resolveChord, amendedRecognized, parseChordSymbol, hr,
            hs, Option.isSome_none, Bool.false_or]
          simp
      | some t =>
          obtain ⟨c, sharp, hasM⟩ := t
          cases hn : rootNoteName c sharp with
          | none =>
              simp only [resolveChord, amendedRecognized, parseChordSymbol,
                hr, hs, hn, Option.isSome_none, Bool.false_or]
              simp
          | some root =>
              simp only [resolveChord, amendedRecognized, parseChordSymbol,
                hr, hs, hn, Option.isSome_some, Bool.false_or]
              simp

/-- C7: the numeric setters clamp into their documented ranges and the
matching getter returns the clamped value, for every rational input:
`setVolume` to [0,1], `setOctaveShift` to [-2,2], `setTempo` to [20,300],
`setSwing` to [0,100]; in particular the spec's eight concrete instances
hold. -/
theorem C7_setters_clamp :
    (∀ (x : ℚ) (s : SynthState), getVolume (setVolume x s) = max 0 (min 1 x)) ∧
    (∀ (x : ℚ) (s : SynthState),
      getOctaveShift (setOctaveShift x s) = max (-2) (min 2 x)) ∧
    (∀ (x : ℚ) (t : BackingState),
      getTempo (setTempo x t) = max 20 (min 300 x)) ∧
    (∀ (x : ℚ) (t : BackingState),
      getSwing (setSwing x t) = max 0 (min 100 x)) ∧
    (∀ s : SynthState,
      getVolume (setVolume (-5) s) = 0 ∧ getVolume (setVolume 5 s) = 1 ∧
      getOctaveShift (setOctaveShift (-9) s) = -2 ∧
      getOctaveShift (setOctaveShift 9 s) = 2) ∧
    (∀ t : BackingState,
      getTempo (setTempo 1 t) = 20 ∧ getTempo (setTempo 999 t) = 300 ∧
      getSwing (setSwing (-1) t) = 0 ∧ getSwing (setSwing 999 t) = 100) := by
  refine ⟨?_, ?_, ?_, ?_, ?_, ?_⟩ <;> intros <;>
    simp [getVolume, setVolume, clampVolume, getOctaveShift, setOctaveShift,
      getTempo, setTempo, updateBeatsPerChord, getSwing, setSwing] <;>
    norm_num

theorem noteOff_flags (k : ℤ) (s : SynthState) :
    (noteOff k s).destroyed = s.destroyed ∧
      (noteOff k s).audioCtx = s.audioCtx ∧
        (noteOff k s).closeCalls = s.closeCalls := by
  unfold noteOff
  cases mapGet k s.activeNotes with
  | none => exact ⟨rfl, rfl, rfl⟩
  | some v => by_cases h : s.audioCtx = true <;> simp [h]

theorem foldl_noteOff_flags (l : List ℤ) (s : SynthState) :
    (l.foldl (fun st k => noteOff k st) s).destroyed = s.destroyed ∧
      (l.foldl (fun st k => noteOff k st) s).audioCtx = s.audioCtx ∧
        (l.foldl (fun st k => noteOff k st) s).closeCalls = s.closeCalls := by
  induction l generalizing s with
  | nil => exact ⟨rfl, rfl, rfl⟩
  | cons k l ih =>
      simp only [List.foldl_cons]
      obtain ⟨h1, h2, h3⟩ := ih (noteOff k s)
      obtain ⟨g1, g2, g3⟩ := noteOff_flags k s
      exact ⟨h1.trans g1, h2.trans g2, h3.trans g3⟩

theorem stopAll_flags (s : SynthState) :
    (stopAll s).destroyed = s.destroyed ∧ (stopAll s).audioCtx = s.audioCtx ∧
      (stopAll s).closeCalls = s.closeCalls :=
  foldl_noteOff_flags _ s

theorem synthDestroy_destroyed (s : SynthState) :
    (synthDestroy s).destroyed = true := by
  unfold synthDestroy
  cases hd : s.destroyed with
  | true => simpa using hd
  | false =>
      simp only [hd, Bool.false_eq_true, if_false]
      have h1 : (stopAll { s with destroyed := true }).destroyed = true :=
        (stopAll_flags { s with destroyed := true }).1
      split <;> exact h1

theorem synthDestroy_of_destroyed (s : SynthState) (h : s.destroyed = true) :
    synthDestroy s = s := by
  unfold synthDestroy
  rw [if_pos h]

theorem synthDestroy_closeCalls (s : SynthState) (h1 : s.destroyed = false)
    (h2 : s.audioCtx = true) :
    (synthDestroy s).closeCalls = s.closeCalls + 1 := by
  unfold synthDestroy
  simp only [h1, Bool.false_eq_true, if_false]
  obtain ⟨-, hctx, hcalls⟩ := stopAll_flags { s with destroyed := true }
  split
  · exact congrArg (fun n => n + 1) hcalls
  · rename_i hneg
    exact absurd (hctx.trans h2) hneg

theorem backingStop_flags (t : BackingState) :
    (backingStop t).destroyed = t.destroyed ∧
      (backingStop t).masterDisconnects = t.masterDisconnects ∧
        (backingStop t).compressorDisconnects = t.compressorDisconnects ∧
          (backingStop t).isPlaying = false := by
  unfold backingStop
  by_cases h : t.isPlaying = true <;> simp [h]

theorem backingDestroy_destroyed (t : BackingState) :
    (backingDestroy t).destroyed = true := by
  unfold backingDestroy
  by_cases h : t.destroyed = true
  · simp [h]
  · simp only [h, if_false]
    simpa using (backingStop_flags { t with destroyed := true }).1

theorem backingDestroy_of_destroyed (t : BackingState)
    (h : t.destroyed = true) : backingDestroy t = t := by
  unfold backingDestroy
  rw [if_pos h]

theorem backingDestroy_counts (t : BackingState) (h : t.destroyed = false) :
    (backingDestroy t).masterDisconnects = t.masterDisconnects + 1 ∧
      (backingDestroy t).compressorDisconnects = t.compressorDisconnects + 1 := by
  unfold backingDestroy
  simp only [h, Bool.false_eq_true, if_false]
  obtain ⟨-, hm, hc, -⟩ := backingStop_flags { t with destroyed := true }
  exact ⟨congrArg (fun n => n + 1) hm, congrArg (fun n => n + 1) hc⟩

/-- C5: `destroy()` is idempotent for both the Synth and the BackingTrack —
a second (or any further) call is the identity, hence never throws (all
operations of the model are total) — and, provided the engine was
initialized (for the Synth: the lazily created AudioContext exists; the
BackingTrack's master stage always exists), the engine-release operation
(`AudioContext.close`; master-gain and compressor disconnect) is performed
exactly once across any number of `destroy()` calls. -/
theorem C5_destroy_idempotent_once :
    (∀ s : SynthState, synthDestroy (synthDestroy s) = synthDestroy s) ∧
    (∀ t : BackingState, backingDestroy (backingDestroy t) = backingDestroy t) ∧
    (∀ s : SynthState, s.destroyed = false → s.audioCtx = true →
      ∀ n : ℕ, 1 ≤ n →
        (synthDestroy^[n] s).closeCalls = s.closeCalls + 1) ∧
    (∀ t : BackingState, t.destroyed = false → ∀ n : ℕ, 1 ≤ n →
      (backingDestroy^[n] t).masterDisconnects = t.masterDisconnects + 1 ∧
        (backingDestroy^[n] t).compressorDisconnects =
          t.compressorDisconnects + 1) := by
  have hidemS : ∀ s : SynthState, synthDestroy (synthDestroy s) = synthDestroy s :=
    fun s => synthDestroy_of_destroyed _ (synthDestroy_destroyed s)
  have hidemB : ∀ t : BackingState,
      backingDestroy (backingDestroy t) = backingDestroy t :=
    fun t => backingDestroy_of_destroyed _ (backingDestroy_destroyed t)
  refine ⟨hidemS, hidemB, ?_, ?_⟩
  · intro s h1 h2 n hn
    obtain ⟨m, rfl⟩ := Nat.exists_eq_add_of_le hn
    rw [Nat.add_comm, Function.iterate_add_apply, Function.iterate_one,
      Function.iterate_fixed (hidemS s) m]
    exact synthDestroy_closeCalls s h1 h2
  · intro t h n hn
    obtain ⟨m, rfl⟩ := Nat.exists_eq_add_of_le hn
    rw [Nat.add_comm, Function.iterate_add_apply, Function.iterate_one,
      Function.iterate_fixed (hidemB t) m]
    exact backingDestroy_counts t h

/-- Witness for C5 at concrete states: a live synth (context created by a
`noteOn`) and the default backing track, each destroyed twice. -/
theorem C5_witness :
    (synthLive.destroyed = false ∧ synthLive.audioCtx = true ∧
      (synthDestroy^[2] synthLive).closeCalls = synthLive.closeCalls + 1) ∧
    (backingDefault.destroyed = false ∧
      (backingDestroy^[2] backingDefault).masterDisconnects =
        backingDefault.masterDisconnects + 1 ∧
      (backingDestroy^[2] backingDefault).compressorDisconnects =
        backingDefault.compressorDisconnects + 1) :=
  ⟨⟨rfl, rfl,
    C5_destroy_idempotent_once.2.2.1 synthLive rfl rfl 2 (by norm_num)⟩,
   ⟨rfl,
    (C5_destroy_idempotent_once.2.2.2 backingDefault rfl 2 (by norm_num)).1,
    (C5_destroy_idempotent_once.2.2.2 backingDefault rfl 2 (by norm_num)).2⟩⟩

theorem synthDestroy_post (s : SynthState) (h : s.destroyed = false) :
    (synthDestroy s).audioCtx = false ∧ (synthDestroy s).activeNotes = [] := by
  unfold synthDestroy
  simp only [h, Bool.false_eq_true, if_false]
  constructor
  · split
    · rfl
    · rename_i hneg
      exact Bool.eq_false_iff.mpr hneg
  · trivial

theorem backingDestroy_isPlaying (t : BackingState) (h : t.destroyed = false) :
    (backingDestroy t).isPlaying = false := by
  unfold backingDestroy
  simp only [h, Bool.false_eq_true, if_false]
  exact (backingStop_flags { t with destroyed := true }).2.2.2

theorem setChords_flags (prog : List String) (key : Option NoteName)
    (t : BackingState) :
    (setChords prog key t).1.destroyed = t.destroyed ∧
      (setChords prog key t).1.masterDisconnects = t.masterDisconnects ∧
        (setChords prog key t).1.isPlaying = t.isPlaying ∧
          (setChords prog key t).1.nextNoteTime = t.nextNoteTime := by
  unfold setChords
  cases key with
  | none =>
      dsimp only
      cases resolveChordsB prog t.key <;> exact ⟨rfl, rfl, rfl, rfl⟩
  | some kk =>
      dsimp only
      cases resolveChordsB prog kk <;> exact ⟨rfl, rfl, rfl, rfl⟩

/-- C4 counterexample: operations on a destroyed instance are not all
ignored.  On a destroyed default synth (stored volume 0.5), `setVolume 0.9`
still updates the state observable through `getVolume` (the source's
`setVolume` has no destroyed-guard), so the claim's "changes no state
observable through the read accessors" fails. -/
theorem C4_counterexample :
    synthDead.destroyed = true ∧ getVolume synthDead = 1/2 ∧
      getVolume (setVolume (9/10) synthDead) = 9/10 := by
  refine ⟨rfl, ?_, ?_⟩
  · have h : getVolume synthDead = clampVolume DEFAULT_VOLUME := rfl
    rw [h]
    unfold clampVolume DEFAULT_VOLUME
    rw [min_eq_right (by norm_num), max_eq_right (by norm_num)]
  · have h : getVolume (setVolume (9/10) synthDead) = clampVolume (9/10) := rfl
    rw [h]
    unfold clampVolume
    rw [min_eq_right (by norm_num), max_eq_right (by norm_num)]

/-- C4 (amended): no operation on a destroyed instance throws (all modelled
operations are total), and the lifecycle operations (`noteOn`, `noteOff`,
`bend`, `stopAll`; `play`, `stop`) are silently ignored; but the plain
configuration setters are *not* ignored: they still update exactly their
stored field(s), observable through the matching getters, while leaving the
released audio engine untouched (no rebuild happens because the context is
gone, and `setChords` neither un-destroys, restarts, nor touches the engine
counters or the clock). -/
theorem C4_after_destroy :
    ∀ (s₀ : SynthState) (t₀ : BackingState),
      s₀.destroyed = false → t₀.destroyed = false →
      ∀ (k : ℤ) (f c x o : ℚ) (w : OscillatorType) (b : Bool)
        (now bpm sw : ℚ) (st : BackingStyle) (i : BackingInstrument)
        (prog : List String) (key : Option NoteName),
      noteOn k f (synthDestroy s₀) = synthDestroy s₀ ∧
      noteOff k (synthDestroy s₀) = synthDestroy s₀ ∧
      bend k c (synthDestroy s₀) = synthDestroy s₀ ∧
      stopAll (synthDestroy s₀) = synthDestroy s₀ ∧
      setVolume x (synthDestroy s₀) =
        { synthDestroy s₀ with volume := clampVolume x } ∧
      setWaveform w (synthDestroy s₀) =
        { synthDestroy s₀ with waveform := w } ∧
      setOctaveShift o (synthDestroy s₀) =
        { synthDestroy s₀ with octaveShift := max (-2) (min 2 o) } ∧
      toggleDelay b (synthDestroy s₀) =
        { synthDestroy s₀ with effectsState :=
            { (synthDestroy s₀).effectsState with delay := b } } ∧
      toggleDistortion b (synthDestroy s₀) =
        { synthDestroy s₀ with effectsState :=
            { (synthDestroy s₀).effectsState with distortion := b } } ∧
      toggleVibrato b (synthDestroy s₀) =
        { synthDestroy s₀ with effectsState :=
            { (synthDestroy s₀).effectsState with vibrato := b } } ∧
      toggleFilter b (synthDestroy s₀) =
        { synthDestroy s₀ with effectsState :=
            { (synthDestroy s₀).effectsState with filter := b } } ∧
      toggleReverb b (synthDestroy s₀) =
        { synthDestroy s₀ with effectsState :=
            { (synthDestroy s₀).effectsState with reverb := b } } ∧
      backingPlay now (backingDestroy t₀) = backingDestroy t₀ ∧
      backingStop (backingDestroy t₀) = backingDestroy t₀ ∧
      setTempo bpm (backingDestroy t₀) =
        { backingDestroy t₀ with tempo := max 20 (min 300 bpm),
                                 beatsPerChord := 4 * (backingDestroy t₀).bars } ∧
      setSwing sw (backingDestroy t₀) =
        { backingDestroy t₀ with swing := max 0 (min 100 sw) } ∧
      setStyle st (backingDestroy t₀) =
        { backingDestroy t₀ with style := st,
                                 beatsPerChord := 4 * (backingDestroy t₀).bars } ∧
      setInstrument i (backingDestroy t₀) =
        { backingDestroy t₀ with instrument := i } ∧
      ((setChords prog key (backingDestroy t₀)).1.destroyed = true ∧
        (setChords prog key (backingDestroy t₀)).1.masterDisconnects =
          (backingDestroy t₀).masterDisconnects ∧
        (setChords prog key (backingDestroy t₀)).1.isPlaying = false ∧
        (setChords prog key (backingDestroy t₀)).1.nextNoteTime =
          (backingDestroy t₀).nextNoteTime) := by
  intro s₀ t₀ hs₀ ht₀ k f c x o w b now bpm sw st i prog key
  obtain ⟨hctx, hnotes⟩ := synthDestroy_post s₀ hs₀
  have hdead := synthDestroy_destroyed s₀
  have hbdead := backingDestroy_destroyed t₀
  have hbplay := backingDestroy_isPlaying t₀ ht₀
  refine ⟨?_, ?_, ?_, ?_, rfl, rfl, rfl, ?_, ?_, ?_, ?_, ?_, ?_, ?_, rfl, rfl,
    rfl, rfl, ?_⟩
  · unfold noteOn
    simp [hdead]
  · unfold noteOff
    rw [hnotes]
    rfl
  · unfold bend
    rw [hnotes]
    rfl
  · unfold stopAll
    rw [hnotes]
    rfl
  · unfold toggleDelay
    by_cases h : (synthDestroy s₀).effectsState.delay = b
    · rw [← h]
      simp
    · have hb : ((synthDestroy s₀).effectsState.delay == b) = false := by
        simp [h]
      simp only [hb, Bool.false_eq_true, if_false]
      rw [if_neg]
      simp [hctx]
  · unfold toggleDistortion
    by_cases h : (synthDestroy s₀).effectsState.distortion = b
    · rw [← h]
      simp
    · have hb : ((synthDestroy s₀).effectsState.distortion == b) = false := by
        simp [h]
      simp only [hb, Bool.false_eq_true, if_false]
      rw [if_neg]
      simp [hctx]
  · unfold toggleVibrato
    by_cases h : (synthDestroy s₀).effectsState.vibrato = b
    · rw [← h]
      simp
    · have hb : ((synthDestroy s₀).effectsState.vibrato == b) = false := by
        simp [h]
      simp only [hb, Bool.false_eq_true, if_false]
      rw [if_neg]
      simp [hctx]
  · unfold toggleFilter
    by_cases h : (synthDestroy s₀).effectsState.filter = b
    · rw [← h]
      simp
    · have hb : ((synthDestroy s₀).effectsState.filter == b) = false := by
        simp [h]
      simp only [hb, Bool.false_eq_true, if_false]
      rw [if_neg]
      simp [hctx]
  · unfold toggleReverb
    by_cases h : (synthDestroy s₀).effectsState.reverb = b
    · rw [← h]
      simp
    · have hb : ((synthDestroy s₀).effectsState.reverb == b) = false := by
        simp [h]
      simp only [hb, Bool.false_eq_true, if_false]
      rw [if_neg]
      simp [hctx]
  · unfold backingPlay
    simp [hbdead]
  · unfold backingStop
    simp [hbplay]
  · obtain ⟨h1, h2, h3, h4⟩ := setChords_flags prog key (backingDestroy t₀)
    exact ⟨h1.trans hbdead, h2, h3.trans hbplay, h4⟩

/-- Witness for C4's amended theorem at the default synth and backing
track. -/
theorem C4_witness :
    synthDefault.destroyed = false ∧ backingDefault.destroyed = false ∧
      noteOn 0 440 (synthDestroy synthDefault) = synthDestroy synthDefault ∧
      getVolume (setVolume (9/10) (synthDestroy synthDefault)) = 9/10 :=
  ⟨rfl, rfl,
   (C4_after_destroy synthDefault backingDefault rfl rfl 0 440 0 (9/10) 0
      .sine true 0 0 0 .quarter .bass [] none).1,
   by
     rw [(C4_after_destroy synthDefault backingDefault rfl rfl 0 440 0 (9/10)
        0 .sine true 0 0 0 .quarter .bass [] none).2.2.2.2.1]
     have h : getVolume
         { synthDestroy synthDefault with volume := clampVolume (9/10) } =
           clampVolume (9/10) := rfl
     rw [h]
     unfold clampVolume
     rw [min_eq_right (by norm_num), max_eq_right (by norm_num)]⟩

theorem chainLinks_proj (u : EffectUnit) (rest : List EffectUnit) :
    (chainLinks u rest).map (fun e => e.1) =
        (u :: rest).map (fun x => ChainNode.unitOut x) ∧
      (chainLinks u rest).map (fun e => e.2) =
        rest.map (fun x => ChainNode.unitIn x) ++ [ChainNode.masterGain] := by
  induction rest generalizing u with
  | nil => exact ⟨rfl, rfl⟩
  | cons v rest ih =>
      refine ⟨?_, ?_⟩ <;> simp [chainLinks, (ih v).1, (ih v).2]

/-- C6: whenever the effect chain is rebuilt, the serial chain consists of
exactly the enabled non-vibrato units in the fixed order distortion → filter
→ delay → reverb; the vibrato unit never appears in the serial chain; the
wiring runs chain-input → first unit → … → last unit → master gain, with
chain-input connected directly to the master gain when no serial effect is
enabled; and enabling vibrato attaches its modulation output to the
pitch-detune of every live voice instead. -/
theorem C6_effect_chain :
    (∀ es : EffectsState,
      rebuildActiveEffects es =
        ([EffectUnit.distortion, EffectUnit.filter, EffectUnit.delay,
          EffectUnit.reverb].filter (fun u => enabledFlag es u)) ∧
      EffectUnit.vibrato ∉ rebuildActiveEffects es ∧
      (∀ u : EffectUnit, u ≠ EffectUnit.vibrato →
        (u ∈ rebuildActiveEffects es ↔ enabledFlag es u = true)) ∧
      (rebuildActiveEffects es = [] →
        chainWiring (rebuildActiveEffects es) =
          [(ChainNode.chainInput, ChainNode.masterGain)])) ∧
    (∀ chain : List EffectUnit,
      (chainWiring chain).map (fun e => e.1) =
        ChainNode.chainInput :: chain.map (fun u => ChainNode.unitOut u) ∧
      (chainWiring chain).map (fun e => e.2) =
        chain.map (fun u => ChainNode.unitIn u) ++ [ChainNode.masterGain]) ∧
    (∀ s : SynthState, s.audioCtx = true → s.effectsState.vibrato = false →
      ∀ p ∈ (toggleVibrato true s).activeNotes, p.2.vibratoAttached = true) := by
  refine ⟨?_, ?_, ?_⟩
  · intro es
    obtain ⟨d, di, v, fi, r⟩ := es
    cases d <;> cases di <;> cases v <;> cases fi <;> cases r <;>
      exact ⟨by decide, by decide, by decide, by decide⟩
  · intro chain
    cases chain with
    | nil => exact ⟨rfl, rfl⟩
    | cons u rest =>
        refine ⟨?_, ?_⟩ <;>
          simp [chainWiring, (chainLinks_proj u rest).1,
            (chainLinks_proj u rest).2]
  · intro s ha hv p hp
    have hnotes : (toggleVibrato true s).activeNotes =
        s.activeNotes.map
          (fun p => (p.1, { p.2 with vibratoAttached := true })) := by
      unfold toggleVibrato rebuildEffectChain
      rw [hv]
      simp [ha]
    rw [hnotes] at hp
    simp only [List.mem_map] at hp
    obtain ⟨q, -, hq⟩ := hp
    rw [← hq]

/-- Witness for C6's per-voice vibrato attachment at a live synth with one
sounding note. -/
theorem C6_witness :
    synthLive.audioCtx = true ∧ synthLive.effectsState.vibrato = false ∧
      ((0 : ℤ), (⟨440, 0, 0, true⟩ : ActiveNote)) ∈
          (toggleVibrato true synthLive).activeNotes ∧
        (((0 : ℤ), (⟨440, 0, 0, true⟩ : ActiveNote)) :
            ℤ × ActiveNote).2.vibratoAttached = true :=
  ⟨rfl, rfl, by decide, C6_effect_chain.2.2 synthLive rfl rfl _ (by decide)⟩

theorem not_mem_keys_of_mapHas_false {V : Type} {k : ℤ} {m : List (ℤ × V)}
    (h : mapHas k m = false) : k ∉ m.map (fun p => p.1) := by
  unfold mapHas at h
  rw [List.any_eq_false] at h
  simp only [List.mem_map]
  rintro ⟨p, hp, hk⟩
  exact h p hp (by simp [hk])

theorem keys_mapSet_of_mapHas_false {V : Type} {k : ℤ} (v : V)
    {m : List (ℤ × V)} (h : mapHas k m = false) :
    (mapSet k v m).map (fun p => p.1) = m.map (fun p => p.1) ++ [k] := by
  unfold mapSet
  rw [h]
  simp

theorem keys_mapSet_of_mapHas_true {V : Type} {k : ℤ} (v : V)
    {m : List (ℤ × V)} (h : mapHas k m = true) :
    (mapSet k v m).map (fun p => p.1) = m.map (fun p => p.1) := by
  unfold mapSet
  rw [h]
  simp only [if_true, List.map_map]
  apply List.map_congr_left
  intro p _
  by_cases hpk : p.1 = k
  · simp [hpk]
  · simp [hpk]

theorem keysNodup_mapDelete {V : Type} (k : ℤ) {m : List (ℤ × V)}
    (h : keysNodup m) : keysNodup (mapDelete k m) := by
  unfold keysNodup mapDelete at *
  exact List.Nodup.sublist ((List.filter_sublist m).map _) h

theorem mapHas_mapDelete {V : Type} (k : ℤ) (m : List (ℤ × V)) :
    mapHas k (mapDelete k m) = false := by
  unfold mapHas mapDelete
  rw [List.any_eq_false]
  intro p hp
  rw [List.mem_filter] at hp
  simpa using hp.2

theorem mapHas_of_mapGet_some {V : Type} {k : ℤ} {m : List (ℤ × V)} {v : V}
    (h : mapGet k m = some v) : mapHas k m = true := by
  unfold mapGet at h
  unfold mapHas
  rw [List.any_eq_true]
  cases hf : m.find? (fun p => p.1 == k) with
  | none => rw [hf] at h; exact absurd h (by simp)
  | some p =>
      have hpk := List.find?_some hf
      exact ⟨p, List.mem_of_find?_eq_some hf, hpk⟩

theorem ensureAudioContext_fields (s : SynthState) :
    (ensureAudioContext s).activeNotes = s.activeNotes ∧
      (ensureAudioContext s).audioCtx = true ∧
        (ensureAudioContext s).destroyed = s.destroyed := by
  unfold ensureAudioContext rebuildEffectChain
  split
  · rename_i h
    exact ⟨rfl, h, rfl⟩
  · split
    · exact ⟨rfl, rfl, rfl⟩
    · rename_i h
      exact absurd rfl h

theorem noteOff_activeNotes (k : ℤ) (s : SynthState) :
    (noteOff k s).activeNotes = s.activeNotes ∨
      (noteOff k s).activeNotes = mapDelete k s.activeNotes := by
  unfold noteOff
  cases mapGet k s.activeNotes with
  | none => exact Or.inl rfl
  | some v =>
      by_cases h : s.audioCtx = true
      · rw [if_pos h]
        exact Or.inr rfl
      · rw [if_neg h]
        exact Or.inl rfl

theorem keysNodup_noteOff (k : ℤ) (s : SynthState) (h : keysNodup s.activeNotes) :
    keysNodup (noteOff k s).activeNotes := by
  rcases noteOff_activeNotes k s with he | he <;> rw [he]
  · exact h
  · exact keysNodup_mapDelete k h

theorem noteOn_keys (k : ℤ) (f : ℚ) (s : SynthState) (h : s.destroyed = false) :
    ∃ m' : List (ℤ × ActiveNote),
      (noteOn k f s).activeNotes.map (fun p => p.1) =
          m'.map (fun p => p.1) ++ [k] ∧
        mapHas k m' = false ∧
          (m' = s.activeNotes ∨ m' = mapDelete k s.activeNotes) := by
  unfold noteOn
  simp only [h, Bool.false_eq_true, if_false]
  obtain ⟨hnotes, hctx, -⟩ := ensureAudioContext_fields s
  set s1 := ensureAudioContext s with hs1
  by_cases hhas : mapHas k s1.activeNotes = true
  · rw [if_pos hhas]
    refine ⟨mapDelete k s1.activeNotes, ?_, mapHas_mapDelete k _, ?_⟩
    · have hoff : (noteOff k s1).activeNotes = mapDelete k s1.activeNotes := by
        unfold noteOff
        cases hg : mapGet k s1.activeNotes with
        | none =>
            exfalso
            unfold mapHas at hhas
            rw [List.any_eq_true] at hhas
            obtain ⟨p, hp, hpk⟩ := hhas
            have : s1.activeNotes.find? (fun q => q.1 == k) ≠ none := by
              intro hcon
              have := List.find?_eq_none.mp hcon p hp
              exact this hpk
            unfold mapGet at hg
            cases hf : s1.activeNotes.find? (fun q => q.1 == k) with
            | none => exact this hf
            | some q => rw [hf] at hg; exact absurd hg (by simp)
        | some v => rw [if_pos hctx]
      rw [show (noteOff k s1) =
        { s1 with activeNotes := (noteOff k s1).activeNotes } from ?_]
      · dsimp only
        rw [hoff]
        exact keys_mapSet_of_mapHas_false _ (mapHas_mapDelete k _)
      · unfold noteOff
        cases mapGet k s1.activeNotes with
        | none => rfl
        | some v =>
            by_cases hc : s1.audioCtx = true
            · rw [if_pos hc]
            · rw [if_neg hc]
    · rw [hnotes]
      exact Or.inr rfl
  · rw [if_neg hhas]
    have hh : mapHas k s1.activeNotes = false := by
      cases hb : mapHas k s1.activeNotes
      · rfl
      · exact absurd hb hhas
    refine ⟨s1.activeNotes, keys_mapSet_of_mapHas_false _ hh, hh, ?_⟩
    rw [hnotes]
    exact Or.inl rfl

theorem keysNodup_noteOn (k : ℤ) (f : ℚ) (s : SynthState)
    (h : keysNodup s.activeNotes) : keysNodup (noteOn k f s).activeNotes := by
  cases hd : s.destroyed with
  | true =>
      have : noteOn k f s = s := by
        unfold noteOn
        rw [if_pos hd]
      rw [this]
      exact h
  | false =>
      obtain ⟨m', hkeys, hhas, hm'⟩ := noteOn_keys k f s hd
      unfold keysNodup
      rw [hkeys]
      have hnd : keysNodup m' := by
        rcases hm' with rfl | rfl
        · exact h
        · exact keysNodup_mapDelete k h
      have hnk := not_mem_keys_of_mapHas_false hhas
      rw [List.nodup_append]
      refine ⟨hnd, List.nodup_singleton k, ?_⟩
      intro a ha hak
      rw [List.mem_singleton] at hak
      subst hak
      exact hnk ha

theorem keysNodup_foldl_noteOff (l : List ℤ) (s : SynthState)
    (h : keysNodup s.activeNotes) :
    keysNodup ((l.foldl (fun st k => noteOff k st) s)).activeNotes := by
  induction l generalizing s with
  | nil => exact h
  | cons k l ih =>
      simp only [List.foldl_cons]
      exact ih _ (keysNodup_noteOff k s h)

theorem keysNodup_bend (k : ℤ) (c : ℚ) (s : SynthState)
    (h : keysNodup s.activeNotes) : keysNodup (bend k c s).activeNotes := by
  unfold bend
  cases hg : mapGet k s.activeNotes with
  | none => exact h
  | some note =>
      dsimp only
      by_cases hc : s.audioCtx = true
      · rw [if_pos hc]
        unfold keysNodup
        rw [keys_mapSet_of_mapHas_true _ (mapHas_of_mapGet_some hg)]
        exact h
      · rw [if_neg hc]
        exact h

theorem rebuildEffectChain_activeNotes (s : SynthState) :
    (rebuildEffectChain s).activeNotes = s.activeNotes := by
  unfold rebuildEffectChain
  split <;> rfl

theorem toggleDelay_activeNotes (b : Bool) (s : SynthState) :
    (toggleDelay b s).activeNotes = s.activeNotes := by
  unfold toggleDelay
  split
  · rfl
  · dsimp only
    split
    · exact rebuildEffectChain_activeNotes _
    · rfl

theorem toggleDistortion_activeNotes (b : Bool) (s : SynthState) :
    (toggleDistortion b s).activeNotes = s.activeNotes := by
  unfold toggleDistortion
  split
  · rfl
  · dsimp only
    split
    · exact rebuildEffectChain_activeNotes _
    · rfl

theorem toggleFilter_activeNotes (b : Bool) (s : SynthState) :
    (toggleFilter b s).activeNotes = s.activeNotes := by
  unfold toggleFilter
  split
  · rfl
  · dsimp only
    split
    · exact rebuildEffectChain_activeNotes _
    · rfl

theorem toggleReverb_activeNotes (b : Bool) (s : SynthState) :
    (toggleReverb b s).activeNotes = s.activeNotes := by
  unfold toggleReverb
  split
  · rfl
  · dsimp only
    split
    · exact rebuildEffectChain_activeNotes _
    · rfl

theorem toggleVibrato_keys (b : Bool) (s : SynthState) :
    (toggleVibrato b s).activeNotes.map (fun p => p.1) =
      s.activeNotes.map (fun p => p.1) := by
  unfold toggleVibrato
  split
  · rfl
  · dsimp only
    split
    · split
      · rw [List.map_map]
        have hco : ((fun (p : ℤ × ActiveNote) => p.1) ∘
            (fun (p : ℤ × ActiveNote) =>
              (p.1, { p.2 with vibratoAttached := b }))) =
              (fun (p : ℤ × ActiveNote) => p.1) := rfl
        rw [hco, rebuildEffectChain_activeNotes]
      · rw [rebuildEffectChain_activeNotes]
    · rfl

/-- C3: the voice table holds at most one entry per key — the invariant is
preserved by every Synth operation; a `noteOn` at an occupied key replaces
the voice rather than accumulating (two `noteOn`s at the same key with no
intervening `noteOff` leave exactly one entry at that key); and a `noteOn`
grows the active-note count by at most one. -/
theorem C3_voice_table :
    (∀ (op : SynthOp) (s : SynthState), keysNodup s.activeNotes →
      keysNodup (applySynthOp op s).activeNotes) ∧
    (∀ (s : SynthState) (k : ℤ) (f1 f2 : ℚ), s.destroyed = false →
      ((noteOn k f2 (noteOn k f1 s)).activeNotes.map (fun p => p.1)).count k
        = 1) ∧
    (∀ (s : SynthState) (k : ℤ) (f : ℚ),
      getActiveNoteCount (noteOn k f s) ≤ getActiveNoteCount s + 1) := by
  have hcount : ∀ (s : SynthState) (k : ℤ) (f : ℚ), s.destroyed = false →
      ((noteOn k f s).activeNotes.map (fun p => p.1)).count k = 1 := by
    intro s k f hd
    obtain ⟨m', hkeys, hhas, -⟩ := noteOn_keys k f s hd
    rw [hkeys, List.count_append]
    have h0 : (m'.map (fun p => p.1)).count k = 0 :=
      List.count_eq_zero.mpr (not_mem_keys_of_mapHas_false hhas)
    simp [h0]
  have hdestroyed : ∀ (k : ℤ) (f : ℚ) (s : SynthState),
      (noteOn k f s).destroyed = s.destroyed := by
    intro k f s
    unfold noteOn
    cases hd : s.destroyed with
    | true => simp [hd]
    | false =>
        simp only [Bool.false_eq_true, if_false]
        obtain ⟨-, -, he⟩ := ensureAudioContext_fields s
        split <;>
          first
            | exact (noteOff_flags k (ensureAudioContext s)).1.trans
                (he.trans hd)
            | exact he.trans hd
  refine ⟨?_, ?_, ?_⟩
  · intro op s h
    cases op with
    | noteOn k f => exact keysNodup_noteOn k f s h
    | noteOff k => exact keysNodup_noteOff k s h
    | stopAll => exact keysNodup_foldl_noteOff _ s h
    | bend k c => exact keysNodup_bend k c s h
    | setWaveform t => exact h
    | setVolume v => exact h
    | setOctaveShift o => exact h
    | toggleDelay b =>
        show keysNodup (toggleDelay b s).activeNotes
        unfold keysNodup
        rw [toggleDelay_activeNotes b s]
        exact h
    | toggleDistortion b =>
        show keysNodup (toggleDistortion b s).activeNotes
        unfold keysNodup
        rw [toggleDistortion_activeNotes b s]
        exact h
    | toggleVibrato b =>
        show keysNodup (toggleVibrato b s).activeNotes
        unfold keysNodup
        rw [toggleVibrato_keys b s]
        exact h
    | toggleFilter b =>
        show keysNodup (toggleFilter b s).activeNotes
        unfold keysNodup
        rw [toggleFilter_activeNotes b s]
        exact h
    | toggleReverb b =>
        show keysNodup (toggleReverb b s).activeNotes
        unfold keysNodup
        rw [toggleReverb_activeNotes b s]
        exact h
    | destroy =>
        show keysNodup (synthDestroy s).activeNotes
        unfold synthDestroy
        split
        · exact h
        · simp [keysNodup]
  · intro s k f1 f2 hd
    have hd1 : (noteOn k f1 s).destroyed = false := (hdestroyed k f1 s).trans hd
    exact hcount (noteOn k f1 s) k f2 hd1
  · intro s k f
    unfold getActiveNoteCount noteOn
    cases hd : s.destroyed with
    | true => simp
    | false =>
        simp only [Bool.false_eq_true, if_false]
        obtain ⟨hnotes, hctx, -⟩ := ensureAudioContext_fields s
        set s1 := ensureAudioContext s with hs1
        have hlen : ∀ (v : ActiveNote) (m : List (ℤ × ActiveNote)),
            (mapSet k v m).length ≤ m.length + 1 := by
          intro v m
          unfold mapSet
          split
          · simp
          · simp
        split
        · refine le_trans (hlen _ _) ?_
          have hoff : (noteOff k s1).activeNotes.length ≤
              s.activeNotes.length := by
            rcases noteOff_activeNotes k s1 with he | he <;> rw [he]
            · rw [hnotes]
            · unfold mapDelete
              refine le_trans (List.length_filter_le _ _) ?_
              rw [hnotes]
          exact Nat.add_le_add_right hoff 1
        · refine le_trans (hlen _ _) ?_
          rw [hnotes]

/-- Witness for C3: two `noteOn`s at key 0 on the fresh default synth leave
exactly one voice at key 0. -/
theorem C3_witness :
    synthDefault.destroyed = false ∧
      ((noteOn 0 523 (noteOn 0 440 synthDefault)).activeNotes.map
          (fun p => p.1)).count 0 = 1 :=
  ⟨rfl, C3_voice_table.2.1 synthDefault 0 440 523 rfl⟩

theorem resolveChordProgression_length (p : List String) (k : NoteName)
    (o : ℤ) (l : List ResolvedChord)
    (h : resolveChordProgression p k o = .ok l) : l.length = p.length := by
  induction p generalizing l with
  | nil =>
      unfold resolveChordProgression at h
      simp only [List.mapM_nil, pure, Except.pure] at h
      cases h
      rfl
  | cons a p ih =>
      unfold resolveChordProgression at h ih
      rw [List.mapM_cons] at h
      cases hc : resolveChord a k o with
      | error e =>
          rw [hc] at h
          simp [Except.bind, bind] at h
      | ok c =>
          rw [hc] at h
          cases hr : p.mapM (fun chord => resolveChord chord k o) with
          | error e =>
              rw [hr] at h
              simp [Except.bind, bind] at h
          | ok cs =>
              rw [hr] at h
              simp only [bind, Except.bind, pure, Except.pure] at h
              cases h
              simp [ih cs hr]

theorem resolveChordsB_ne_nil (p : List String) (k : NoteName)
    (l : List ResolvedChord) (h : resolveChordsB p k = .ok l) : l ≠ [] := by
  unfold resolveChordsB at h
  intro hnil
  subst hnil
  split at h
  · have := resolveChordProgression_length _ _ _ _ h
    simp at this
  · rename_i hp
    have := resolveChordProgression_length _ _ _ _ h
    exact hp (List.length_eq_zero.mp this.symm)

theorem advanceBeat_chords (s : BackingState) :
    (advanceBeat s).resolvedChords = s.resolvedChords := by
  unfold advanceBeat
  dsimp only
  split <;> rfl

theorem advanceBeat_index (s : BackingState) (h1 : s.resolvedChords ≠ [])
    (h2 : s.currentChordIndex < s.resolvedChords.length) :
    (advanceBeat s).currentChordIndex < s.resolvedChords.length := by
  unfold advanceBeat
  dsimp only
  split
  · exact Nat.mod_lt _ (List.length_pos.mpr h1)
  · exact h2

theorem scheduleTick_inv (fuel : ℕ) (endT : ℚ) (s : BackingState)
    (h1 : s.resolvedChords ≠ [])
    (h2 : s.currentChordIndex < s.resolvedChords.length) :
    (scheduleTick fuel endT s).2.resolvedChords = s.resolvedChords ∧
      (scheduleTick fuel endT s).2.currentChordIndex <
        s.resolvedChords.length := by
  induction fuel generalizing s with
  | zero => exact ⟨rfl, h2⟩
  | succ n ih =>
      unfold scheduleTick
      split
      · dsimp only
        set s1 : BackingState :=
          { s with activeOscCount :=
              s.activeOscCount + (getNotesForCurrentBeat s).length } with hs1
        have ha1 : (advanceBeat s1).resolvedChords = s.resolvedChords :=
          advanceBeat_chords s1
        have ha2 : (advanceBeat s1).currentChordIndex <
            s.resolvedChords.length := advanceBeat_index s1 h1 h2
        obtain ⟨hb1, hb2⟩ := ih (advanceBeat s1) (by rw [ha1]; exact h1)
          (by rw [ha1]; exact ha2)
        rw [ha1] at hb1 hb2
        exact ⟨hb1, hb2⟩
      · exact ⟨rfl, h2⟩

/-- C10: the resolved chord list is never empty and `currentChordIndex` is
always a valid index — established by the constructor (an empty progression
resolves to the single tonic chord) and preserved by every operation (tick,
play, stop, all setters, destroy), so the modulo in `advanceBeat` is never
taken over zero. -/
theorem C10_chord_list_invariant :
    (∀ (cfg : BackingConfig) (s : BackingState), backingNew cfg = .ok s →
      s.resolvedChords ≠ [] ∧
        s.currentChordIndex < s.resolvedChords.length) ∧
    (∀ (op : BackingOp) (s : BackingState), s.resolvedChords ≠ [] →
      s.currentChordIndex < s.resolvedChords.length →
      (applyBackingOp op s).2.resolvedChords ≠ [] ∧
        (applyBackingOp op s).2.currentChordIndex <
          (applyBackingOp op s).2.resolvedChords.length) := by
  constructor
  · intro cfg s h
    unfold backingNew at h
    cases hres : resolveChordsB (cfg.chords.getD ["I"]) NoteName.C with
    | error e => rw [hres] at h; exact absurd h (by simp)
    | ok chords =>
        rw [hres] at h
        simp only [Except.ok.injEq] at h
        subst h
        have hne := resolveChordsB_ne_nil _ _ _ hres
        exact ⟨hne, List.length_pos.mpr hne⟩
  · intro op s h1 h2
    cases op with
    | tick fuel now =>
        dsimp only [applyBackingOp]
        unfold backingTick
        split
        · obtain ⟨hc, hi⟩ := scheduleTick_inv fuel (now + 1/10) s h1 h2
          rw [hc]
          exact ⟨h1, hi⟩
        · exact ⟨h1, h2⟩
    | play now =>
        dsimp only [applyBackingOp]
        unfold backingPlay
        split
        · exact ⟨h1, h2⟩
        · exact ⟨h1, List.length_pos.mpr h1⟩
    | stop =>
        dsimp only [applyBackingOp]
        unfold backingStop
        split <;> exact ⟨h1, h2⟩
    | setTempo bpm => exact ⟨h1, h2⟩
    | setChords prog key =>
        dsimp only [applyBackingOp]
        unfold setChords
        cases key with
        | none =>
            dsimp only
            cases hres : resolveChordsB prog s.key with
            | error e => exact ⟨h1, h2⟩
            | ok chords =>
                have hne := resolveChordsB_ne_nil _ _ _ hres
                exact ⟨hne, List.length_pos.mpr hne⟩
        | some kk =>
            dsimp only
            cases hres : resolveChordsB prog kk with
            | error e => exact ⟨h1, h2⟩
            | ok chords =>
                have hne := resolveChordsB_ne_nil _ _ _ hres
                exact ⟨hne, List.length_pos.mpr hne⟩
    | setStyle st => exact ⟨h1, h2⟩
    | setSwing sw => exact ⟨h1, h2⟩
    | setInstrument i => exact ⟨h1, h2⟩
    | destroy =>
        dsimp only [applyBackingOp]
        unfold backingDestroy
        split
        · exact ⟨h1, h2⟩
        · dsimp only
          unfold backingStop
          split <;> exact ⟨h1, h2⟩

/-- Witness for C10: the default constructor run and one scheduler tick on
the resulting (playing) state. -/
theorem C10_witness :
    (backingNew defaultBackingConfig = .ok backingDefault ∧
      backingDefault.resolvedChords ≠ [] ∧
        backingDefault.currentChordIndex <
          backingDefault.resolvedChords.length) ∧
    (backingPlaying.resolvedChords ≠ [] ∧
      backingPlaying.currentChordIndex < backingPlaying.resolvedChords.length ∧
      (applyBackingOp (.tick 8 0) backingPlaying).2.resolvedChords ≠ [] ∧
      (applyBackingOp (.tick 8 0) backingPlaying).2.currentChordIndex <
        (applyBackingOp (.tick 8 0) backingPlaying).2.resolvedChords.length) :=
  ⟨⟨rfl, (C10_chord_list_invariant.1 defaultBackingConfig backingDefault rfl)⟩,
   ⟨by decide, by decide,
    C10_chord_list_invariant.2 (.tick 8 0) backingPlaying (by decide)
      (by decide)⟩⟩

theorem freqHz_add (a b : ℚ) :
    freqHz (a + b) = freqHz a * (2 : ℝ) ^ ((b : ℝ) / 12) := by
  unfold freqHz
  have h2 : (0 : ℝ) < 2 := by norm_num
  have hc : ((a + b : ℚ) : ℝ) / 12 = (a : ℝ) / 12 + (b : ℝ) / 12 := by
    push_cast
    ring
  rw [hc, Real.rpow_add h2]
  ring

/-- C2 counterexample: at 120 BPM (beat duration `B = 1/2`), eighth style,
swing 100, the code's second event offset is `B/2 + (swing/100)·(B/3) =
5/12 s`, while the claim's formula `B/2 + swing·B/3` (with `swing` the stored
0–100 value) gives `203/12 s` — the claim's table is off by the factor 100 in
the swing term. -/
theorem C2_counterexample :
    (getNotesForCurrentBeat cexEighth).map (fun n => n.time) = [0, 5/12] ∧
      claimedEighthOffsets (60 / cexEighth.tempo) cexEighth.swing =
        [0, 203/12] ∧
      (5/12 : ℚ) ≠ 203/12 := by
  refine ⟨?_, ?_, by norm_num⟩
  · simp only [getNotesForCurrentBeat, cexEighth, backingPlaying,
      backingDefault, backingPlay, chordC, INSTRUMENT_CONFIG]
    norm_num
  · simp only [claimedEighthOffsets, cexEighth, backingPlaying,
      backingDefault, backingPlay]
    norm_num

/-- C2 (amended): for every state whose current chord index is valid, the
per-beat events are exactly the spec's table with the eighth-note swing term
read as `(swing/100)·(B/3)`: drone (0, `B·beatsPerChord·0.95`) only on beat 0
and nothing on other beats; quarter (0, `0.8B`); eighth (0, `0.4B`) and
(`B/2 + (swing/100)·(B/3)`, `0.35B`); blues (0, `0.5B`), (`2B/3`, `0.25B`);
arpeggio one chord tone per beat cycling root → third → fifth with duration
`0.8B`, third `= R·2^(4/12)` if major else `R·2^(3/12)`, fifth
`= R·2^(7/12)`, with `R` the chord-root frequency at the instrument
octave. -/
theorem C2_beat_events (s : BackingState) (chord : ResolvedChord)
    (hc : s.resolvedChords.get? s.currentChordIndex = some chord) :
    (getNotesForCurrentBeat s).map interpNote =
      specBeatEvents s.style
        (freqHz ((noteToFrequency chord.root
          (4 + (INSTRUMENT_CONFIG s.instrument).octaveOffset) : ℤ) : ℚ))
        chord.isMajor (60 / s.tempo) s.swing s.currentBeat s.beatsPerChord := by
  unfold getNotesForCurrentBeat specBeatEvents
  rw [hc]
  cases hst : s.style with
  | drone =>
      dsimp only
      split <;> simp [interpNote]
  | quarter => simp [interpNote]
  | eighth => simp [interpNote]
  | blues => simp [interpNote]
  | arpeggio =>
      dsimp only
      have hlen : (getChordTones chord
          (4 + (INSTRUMENT_CONFIG s.instrument).octaveOffset)).length = 3 := by
        unfold getChordTones
        rfl
      rw [hlen]
      have h3 : s.currentBeat % 3 = 0 ∨ s.currentBeat % 3 = 1 ∨
          s.currentBeat % 3 = 2 := by omega
      have hthird : freqHz (((noteToFrequency chord.root
            (4 + (INSTRUMENT_CONFIG s.instrument).octaveOffset) : ℤ) : ℚ) +
              (if chord.isMajor = true then (4 : ℚ) else 3)) =
          freqHz ((noteToFrequency chord.root
            (4 + (INSTRUMENT_CONFIG s.instrument).octaveOffset) : ℤ) : ℚ) *
            (2 : ℝ) ^ ((if chord.isMajor = true then (4 : ℝ) else 3) / 12) := by
        cases chord.isMajor <;>
          · simp only [if_true, if_false, Bool.false_eq_true]
            rw [freqHz_add]
            norm_num
      have hfifth : freqHz (((noteToFrequency chord.root
            (4 + (INSTRUMENT_CONFIG s.instrument).octaveOffset) : ℤ) : ℚ) +
              7) =
          freqHz ((noteToFrequency chord.root
            (4 + (INSTRUMENT_CONFIG s.instrument).octaveOffset) : ℤ) : ℚ) *
            (2 : ℝ) ^ ((7 : ℝ) / 12) := by
        rw [freqHz_add]
        norm_num
      rcases h3 with h3 | h3 | h3 <;>
        · rw [h3]
          simp [interpNote, getChordTones, hthird, hfifth]

/-- Witness for C2's amended theorem at the default playing backing track
(style quarter, 120 BPM, chords `['I']` in C). -/
theorem C2_witness :
    backingPlaying.resolvedChords.get? backingPlaying.currentChordIndex =
        some chordC ∧
      (getNotesForCurrentBeat backingPlaying).map interpNote =
        specBeatEvents backingPlaying.style
          (freqHz ((noteToFrequency chordC.root
            (4 + (INSTRUMENT_CONFIG backingPlaying.instrument).octaveOffset) :
              ℤ) : ℚ))
          chordC.isMajor (60 / backingPlaying.tempo) backingPlaying.swing
          backingPlaying.currentBeat backingPlaying.beatsPerChord :=
  ⟨by decide, C2_beat_events backingPlaying chordC (by decide)⟩

theorem beat_offsets_bounds (s : BackingState) (hInv : tempoSwingInv s) :
    ((getNotesForCurrentBeat s).map (fun n => n.time)).Sorted (· ≤ ·) ∧
      ∀ n ∈ getNotesForCurrentBeat s,
        0 ≤ n.time ∧ n.time ≤ 60 / s.tempo := by
  obtain ⟨ht20, ht300, hsw0, hsw100⟩ := hInv
  have htpos : (0 : ℚ) < s.tempo := lt_of_lt_of_le (by norm_num) ht20
  have hB : (0 : ℚ) < 60 / s.tempo := by positivity
  unfold getNotesForCurrentBeat
  cases hg : s.resolvedChords.get? s.currentChordIndex with
  | none => simp
  | some chord =>
      dsimp only
      cases s.style with
      | drone =>
          dsimp only
          split
          · constructor
            · simp
            · intro n hn
              rw [List.mem_singleton] at hn
              subst hn
              exact ⟨le_refl 0, hB.le⟩
          · simp
      | quarter =>
          constructor
          · simp
          · intro n hn
            rw [List.mem_singleton] at hn
            subst hn
            exact ⟨le_refl 0, hB.le⟩
      | eighth =>
          have hoff0 : (0 : ℚ) ≤ 60 / s.tempo / 2 +
              s.swing / 100 * (60 / s.tempo / 3) := by positivity
          have hoffB : 60 / s.tempo / 2 + s.swing / 100 * (60 / s.tempo / 3) ≤
              60 / s.tempo := by
            have h1 : s.swing / 100 * (60 / s.tempo / 3) ≤
                100 / 100 * (60 / s.tempo / 3) :=
              mul_le_mul_of_nonneg_right
                ((div_le_div_iff_of_pos_right (by norm_num)).mpr hsw100)
                (by positivity)
            linarith
          constructor
          · simp [List.sorted_cons]
            exact hoff0
          · intro n hn
            simp only [List.mem_cons, List.mem_singleton,
              List.not_mem_nil, or_false] at hn
            rcases hn with rfl | rfl
            · exact ⟨le_refl 0, hB.le⟩
            · exact ⟨hoff0, hoffB⟩
      | blues =>
          have hoff0 : (0 : ℚ) ≤ 60 / s.tempo * (2/3) := by positivity
          have hoffB : 60 / s.tempo * (2/3) ≤ 60 / s.tempo := by linarith
          constructor
          · simp [List.sorted_cons]
            exact hB.le
          · intro n hn
            simp only [List.mem_cons, List.mem_singleton,
              List.not_mem_nil, or_false] at hn
            rcases hn with rfl | rfl
            · exact ⟨le_refl 0, hB.le⟩
            · exact ⟨hoff0, hoffB⟩
      | arpeggio =>
          constructor
          · simp
          · intro n hn
            rw [List.mem_singleton] at hn
            subst hn
            exact ⟨le_refl 0, hB.le⟩

theorem advanceBeat_fields (x : BackingState) :
    (advanceBeat x).tempo = x.tempo ∧ (advanceBeat x).swing = x.swing ∧
      (advanceBeat x).nextNoteTime = x.nextNoteTime + 60 / x.tempo := by
  unfold advanceBeat
  dsimp only
  split <;> exact ⟨rfl, rfl, rfl⟩

theorem scheduleTick_events (fuel : ℕ) (endT : ℚ) (s : BackingState)
    (hInv : tempoSwingInv s) :
    ((scheduleTick fuel endT s).1.map (fun e => e.start)).Sorted (· ≤ ·) ∧
      s.nextNoteTime ≤ (scheduleTick fuel endT s).2.nextNoteTime ∧
      (∀ e ∈ (scheduleTick fuel endT s).1,
        s.nextNoteTime ≤ e.start ∧
          e.start ≤ (scheduleTick fuel endT s).2.nextNoteTime) ∧
      (scheduleTick fuel endT s).2.tempo = s.tempo ∧
      (scheduleTick fuel endT s).2.swing = s.swing := by
  induction fuel generalizing s with
  | zero =>
      refine ⟨List.sorted_nil, le_refl _, ?_, rfl, rfl⟩
      intro e he
      simp [scheduleTick] at he
  | succ n ih =>
      unfold scheduleTick
      split
      · dsimp only
        have htpos : (0 : ℚ) < s.tempo :=
          lt_of_lt_of_le (by norm_num) hInv.1
        have hB : (0 : ℚ) < 60 / s.tempo := by positivity
        set s1 : BackingState :=
          { s with activeOscCount :=
              s.activeOscCount + (getNotesForCurrentBeat s).length } with hs1
        obtain ⟨ha1, ha2, ha3⟩ := advanceBeat_fields s1
        have hInv1 : tempoSwingInv (advanceBeat s1) := by
          unfold tempoSwingInv
          rw [ha1, ha2]
          exact hInv
        obtain ⟨hsor, hmono, hbnd, htmp, hswg⟩ := ih (advanceBeat s1) hInv1
        have hnext : (advanceBeat s1).nextNoteTime =
            s.nextNoteTime + 60 / s.tempo := ha3
        obtain ⟨hosor, hobnd⟩ := beat_offsets_bounds s hInv
        have hev : ∀ e ∈ (getNotesForCurrentBeat s).map
            (fun nt => (⟨s.nextNoteTime + nt.time, nt.frequency,
              nt.duration⟩ : ScheduledEvent)),
            s.nextNoteTime ≤ e.start ∧
              e.start ≤ s.nextNoteTime + 60 / s.tempo := by
          intro e he
          rw [List.mem_map] at he
          obtain ⟨nt, hnt, rfl⟩ := he
          obtain ⟨h0, h1⟩ := hobnd nt hnt
          dsimp only
          constructor
          · linarith
          · linarith
        refine ⟨?_, ?_, ?_, htmp.trans ha1, hswg.trans ha2⟩
        · rw [List.map_append]
          rw [List.Sorted, List.pairwise_append]
          refine ⟨?_, hsor, ?_⟩
          · rw [List.map_map]
            unfold List.Sorted at hosor
            rw [List.pairwise_map] at hosor ⊢
            refine hosor.imp ?_
            intro a b hab
            dsimp only [Function.comp]
            linarith
          · intro x hx y hy
            rw [List.map_map, List.mem_map] at hx
            obtain ⟨nt, hnt, rfl⟩ := hx
            rw [List.mem_map] at hy
            obtain ⟨e2, he2, rfl⟩ := hy
            have hx1 := (hev _ (List.mem_map_of_mem _ hnt)).2
            have hy1 := (hbnd e2 he2).1
            dsimp only [Function.comp] at hx1 ⊢
            calc s.nextNoteTime + nt.time
                ≤ s.nextNoteTime + 60 / s.tempo := hx1
              _ = (advanceBeat s1).nextNoteTime := hnext.symm
              _ ≤ e2.start := hy1
        · calc s.nextNoteTime
              ≤ s.nextNoteTime + 60 / s.tempo := by linarith
            _ = (advanceBeat s1).nextNoteTime := hnext.symm
            _ ≤ _ := hmono
        · intro e he
          rw [List.mem_append] at he
          rcases he with he | he
          · obtain ⟨h0, h1⟩ := hev e he
            refine ⟨h0, ?_⟩
            calc e.start ≤ s.nextNoteTime + 60 / s.tempo := h1
              _ = (advanceBeat s1).nextNoteTime := hnext.symm
              _ ≤ _ := hmono
          · obtain ⟨h0, h1⟩ := hbnd e he
            refine ⟨?_, h1⟩
            calc s.nextNoteTime ≤ s.nextNoteTime + 60 / s.tempo := by linarith
              _ = (advanceBeat s1).nextNoteTime := hnext.symm
              _ ≤ e.start := h0
      · exact ⟨List.sorted_nil, le_refl _, fun e he => absurd he (by simp),
          rfl, rfl⟩

theorem backingStop_more (t : BackingState) :
    (backingStop t).tempo = t.tempo ∧ (backingStop t).swing = t.swing ∧
      (backingStop t).nextNoteTime = t.nextNoteTime := by
  unfold backingStop
  split <;> exact ⟨rfl, rfl, rfl⟩

theorem backingDestroy_more (t : BackingState) :
    (backingDestroy t).tempo = t.tempo ∧ (backingDestroy t).swing = t.swing ∧
      (backingDestroy t).nextNoteTime = t.nextNoteTime := by
  unfold backingDestroy
  split
  · exact ⟨rfl, rfl, rfl⟩
  · dsimp only
    exact backingStop_more { t with destroyed := true }

theorem setChords_more (prog : List String) (key : Option NoteName)
    (t : BackingState) :
    (setChords prog key t).1.tempo = t.tempo ∧
      (setChords prog key t).1.swing = t.swing := by
  unfold setChords
  cases key with
  | none =>
      dsimp only
      cases resolveChordsB prog t.key <;> exact ⟨rfl, rfl⟩
  | some kk =>
      dsimp only
      cases resolveChordsB prog kk <;> exact ⟨rfl, rfl⟩

theorem applyBackingOp_props (op : BackingOp) (s : BackingState)
    (hInv : tempoSwingInv s) (hop : isPlayOp op = false) :
    tempoSwingInv (applyBackingOp op s).2 ∧
      ((applyBackingOp op s).1.map (fun e => e.start)).Sorted (· ≤ ·) ∧
        s.nextNoteTime ≤ (applyBackingOp op s).2.nextNoteTime ∧
          ∀ e ∈ (applyBackingOp op s).1,
            s.nextNoteTime ≤ e.start ∧
              e.start ≤ (applyBackingOp op s).2.nextNoteTime := by
  cases op with
  | tick fuel now =>
      dsimp only [applyBackingOp]
      unfold backingTick
      split
      · obtain ⟨hs, hm, hb, ht, hw⟩ :=
          scheduleTick_events fuel (now + 1/10) s hInv
        refine ⟨?_, hs, hm, hb⟩
        unfold tempoSwingInv at hInv ⊢
        rw [ht, hw]
        exact hInv
      · exact ⟨hInv, List.sorted_nil, le_refl _, by simp⟩
  | play now => simp [isPlayOp] at hop
  | stop =>
      dsimp only [applyBackingOp]
      obtain ⟨h1, h2, h3⟩ := backingStop_more s
      refine ⟨?_, List.sorted_nil, ?_, by simp⟩
      · unfold tempoSwingInv at hInv ⊢
        rw [h1, h2]
        exact hInv
      · rw [h3]
  | setTempo bpm =>
      dsimp only [applyBackingOp]
      refine ⟨?_, List.sorted_nil, le_refl _, by simp⟩
      unfold tempoSwingInv at hInv ⊢
      exact ⟨le_max_left _ _, max_le (by norm_num) (min_le_left _ _),
        hInv.2.2.1, hInv.2.2.2⟩
  | setChords prog key =>
      dsimp only [applyBackingOp]
      obtain ⟨h1, h2⟩ := setChords_more prog key s
      obtain ⟨-, -, -, h4⟩ := setChords_flags prog key s
      refine ⟨?_, List.sorted_nil, ?_, by simp⟩
      · unfold tempoSwingInv at hInv ⊢
        rw [h1, h2]
        exact hInv
      · rw [h4]
  | setStyle st =>
      dsimp only [applyBackingOp]
      exact ⟨hInv, List.sorted_nil, le_refl _, by simp⟩
  | setSwing sw =>
      dsimp only [applyBackingOp]
      refine ⟨?_, List.sorted_nil, le_refl _, by simp⟩
      unfold tempoSwingInv at hInv ⊢
      exact ⟨hInv.1, hInv.2.1, le_max_left _ _,
        max_le (by norm_num) (min_le_left _ _)⟩
  | setInstrument i =>
      dsimp only [applyBackingOp]
      exact ⟨hInv, List.sorted_nil, le_refl _, by simp⟩
  | destroy =>
      dsimp only [applyBackingOp]
      obtain ⟨h1, h2, h3⟩ := backingDestroy_more s
      refine ⟨?_, List.sorted_nil, ?_, by simp⟩
      · unfold tempoSwingInv at hInv ⊢
        rw [h1, h2]
        exact hInv
      · rw [h3]

/-- C1: for every run of the BackingTrack whose state has tempo in [20,300]
and swing in [0,100] (the clamped ranges) and whose operations contain no
`play` (which legitimately resets the clock to "now"), the absolute start
times of all scheduled events — `nextNoteTime` plus the per-style offset,
concatenated over all scheduler ticks in order — form a non-decreasing
sequence; `nextNoteTime` never decreases across the run; and every event is
scheduled between the run's initial and final `nextNoteTime`, so no event is
ever scheduled at a timestamp earlier than one already scheduled.  (A single
tick is the special case `ops = [tick fuel now]`.) -/
theorem C1_run_monotone :
    ∀ (ops : List BackingOp) (s : BackingState), tempoSwingInv s →
      (∀ op ∈ ops, isPlayOp op = false) →
      ((runBacking ops s).1.map (fun e => e.start)).Sorted (· ≤ ·) ∧
        s.nextNoteTime ≤ (runBacking ops s).2.nextNoteTime ∧
          ∀ e ∈ (runBacking ops s).1,
            s.nextNoteTime ≤ e.start ∧
              e.start ≤ (runBacking ops s).2.nextNoteTime := by
  intro ops
  induction ops with
  | nil =>
      intro s _ _
      exact ⟨List.sorted_nil, le_refl _, by simp [runBacking]⟩
  | cons op ops ih =>
      intro s hInv hops
      unfold runBacking
      dsimp only
      obtain ⟨hInv1, hs1, hm1, hb1⟩ :=
        applyBackingOp_props op s hInv (hops op (List.mem_cons_self _ _))
      obtain ⟨hs2, hm2, hb2⟩ := ih (applyBackingOp op s).2 hInv1
        (fun o ho => hops o (List.mem_cons_of_mem _ ho))
      refine ⟨?_, le_trans hm1 hm2, ?_⟩
      · rw [List.map_append, List.Sorted, List.pairwise_append]
        refine ⟨hs1, hs2, ?_⟩
        intro x hx y hy
        rw [List.mem_map] at hx hy
        obtain ⟨ex, hex, rfl⟩ := hx
        obtain ⟨ey, hey, rfl⟩ := hy
        calc ex.start ≤ (applyBackingOp op s).2.nextNoteTime :=
            (hb1 ex hex).2
          _ ≤ ey.start := (hb2 ey hey).1
      · intro e he
        rw [List.mem_append] at he
        rcases he with he | he
        · obtain ⟨h0, h1⟩ := hb1 e he
          exact ⟨h0, le_trans h1 hm2⟩
        · obtain ⟨h0, h1⟩ := hb2 e he
          exact ⟨le_trans hm1 h0, h1⟩

/-- Witness for C1: a run of the default playing backing track — a tick, a
clamped tempo change, another tick. -/
theorem C1_witness :
    tempoSwingInv backingPlaying ∧
      (∀ op ∈ ([.tick 8 0, .setTempo 999, .tick 8 (1/40)] :
          List BackingOp), isPlayOp op = false) ∧
      ((runBacking [.tick 8 0, .setTempo 999, .tick 8 (1/40)]
          backingPlaying).1.map (fun e => e.start)).Sorted (· ≤ ·) ∧
      backingPlaying.nextNoteTime ≤
        (runBacking [.tick 8 0, .setTempo 999, .tick 8 (1/40)]
          backingPlaying).2.nextNoteTime :=
  have hInvP : tempoSwingInv backingPlaying := by
    unfold tempoSwingInv
    refine ⟨?_, ?_, ?_, ?_⟩
    · show (20 : ℚ) ≤ 120
      norm_num
    · show (120 : ℚ) ≤ 300
      norm_num
    · show (0 : ℚ) ≤ max 0 (min 100 0)
      exact le_max_left _ _
    · show max (0 : ℚ) (min 100 0) ≤ 100
      exact max_le (by norm_num) ((min_le_left _ _).trans (by norm_num))
  have hops : ∀ op ∈ ([.tick 8 0, .setTempo 999, .tick 8 (1/40)] :
      List BackingOp), isPlayOp op = false := by
    intro op hop
    fin_cases hop <;> rfl
  ⟨hInvP, hops,
   (C1_run_monotone [.tick 8 0, .setTempo 999, .tick 8 (1/40)]
      backingPlaying hInvP hops).1,
   (C1_run_monotone [.tick 8 0, .setTempo 999, .tick 8 (1/40)]
      backingPlaying hInvP hops).2.1⟩

end Noodler
